import Mathlib

/- Verification of the incremental timeline builder, dependency cache and
   structural validator of the parsehealthlog repository.

   Python functions from src/main.py and src/validate_timeline.py are
   shallowly embedded as Lean functions.  Conventions:
   * Python str is String; dates, hashes and file contents are strings.
   * Python string comparison (lexicographic by code point) is embedded as
     the executable str_lt / str_le below, because the library order on
     String is not reducible by the kernel.
   * A Python dict is represented by the list of its insertions, in order;
     lookup is "last binding wins" (dget), matching repeated dict writes.
     At every call site in the source the keys are in fact distinct.
   * The SHA-256 based hash_content function is an explicit parameter of
     every definition that uses it: the source treats it as an opaque
     fingerprint, and no claim depends on its definition.
   * The LLM call inside _process_timeline_batch is an explicit oracle
     parameter returning Except String String (error = raised exception).
   * Files are Option String (none = the file does not exist). -/

namespace ParseHealthLog

/-- Lexicographic comparison of character lists, by code point: the Python
comparison list(a) < list(b). -/
def lexLt : List Char → List Char → Bool
  | _, [] => false
  | [], _ :: _ => true
  | a :: as, b :: bs => decide (a < b) || (decide (a = b) && lexLt as bs)

/-- Python string comparison a < b (lexicographic by code point). -/
def str_lt (a b : String) : Bool := lexLt a.data b.data

/-- Python string comparison a <= b. -/
def str_le (a b : String) : Bool := str_lt a b || a == b

theorem lexLt_irrefl (l : List Char) : lexLt l l = false := by
  induction l with
  | nil => rfl
  | cons a as ih => simp [lexLt, ih]

theorem lexLt_trans : ∀ {a b c : List Char},
    lexLt a b = true → lexLt b c = true → lexLt a c = true := by
  intro a
  induction a with
  | nil =>
    intro b c hab hbc
    cases b with
    | nil => simp [lexLt] at hab
    | cons y ys =>
      cases c with
      | nil => simp [lexLt] at hbc
      | cons z zs => simp [lexLt]
  | cons x xs ih =>
    intro b c hab hbc
    cases b with
    | nil => simp [lexLt] at hab
    | cons y ys =>
      cases c with
      | nil => simp [lexLt] at hbc
      | cons z zs =>
        simp only [lexLt, Bool.or_eq_true, Bool.and_eq_true,
          decide_eq_true_eq] at hab hbc ⊢
        rcases hab with hxy | ⟨hxy, hxys⟩
        · rcases hbc with hyz | ⟨hyz, _⟩
          · exact Or.inl (lt_trans hxy hyz)
          · exact Or.inl (hyz ▸ hxy)
        · rcases hbc with hyz | ⟨hyz, hyzs⟩
          · exact Or.inl (hxy ▸ hyz)
          · exact Or.inr ⟨hxy.trans hyz, ih hxys hyzs⟩

theorem lexLt_conn : ∀ {a b : List Char},
    lexLt a b = false → lexLt b a = false → a = b := by
  intro a
  induction a with
  | nil =>
    intro b hab _
    cases b with
    | nil => rfl
    | cons y ys => simp [lexLt] at hab
  | cons x xs ih =>
    intro b hab hba
    cases b with
    | nil => simp [lexLt] at hba
    | cons y ys =>
      simp only [lexLt, Bool.or_eq_false_iff, Bool.and_eq_false_iff,
        decide_eq_false_iff_not] at hab hba
      obtain ⟨hxy, hab2⟩ := hab
      obtain ⟨hyx, hba2⟩ := hba
      have hxyeq : x = y := le_antisymm (not_lt.mp hyx) (not_lt.mp hxy)
      subst hxyeq
      rcases hab2 with h | hab3
      · exact absurd rfl h
      · rcases hba2 with h | hba3
        · exact absurd rfl h
        · rw [ih hab3 hba3]

theorem str_eq_of_data (a b : String) (h : a.data = b.data) : a = b := by
  cases a
  cases b
  exact congrArg String.mk h

theorem str_le_refl (a : String) : str_le a a = true := by
  simp [str_le]

theorem str_le_of_lt {a b : String} (h : str_lt a b = true) :
    str_le a b = true := by
  simp [str_le, h]

theorem str_eq_of_not_lt {a b : String} (hab : str_lt a b = false)
    (hba : str_lt b a = false) : a = b :=
  str_eq_of_data a b (lexLt_conn hab hba)

theorem str_le_of_not_lt {a b : String} (h : str_lt b a = false) :
    str_le a b = true := by
  cases hab : str_lt a b with
  | true => exact str_le_of_lt hab
  | false => simp [str_le, str_eq_of_not_lt hab h]

theorem str_lt_asymm {a b : String} (h : str_lt a b = true) :
    str_lt b a = false := by
  cases hba : str_lt b a with
  | false => rfl
  | true =>
    have := lexLt_trans h hba
    rw [lexLt_irrefl] at this
    exact absurd this (by simp)

theorem str_le_trans {a b c : String} (hab : str_le a b = true)
    (hbc : str_le b c = true) : str_le a c = true := by
  simp only [str_le, Bool.or_eq_true, beq_iff_eq] at hab hbc
  rcases hab with hab | rfl
  · rcases hbc with hbc | rfl
    · exact str_le_of_lt (lexLt_trans hab hbc)
    · exact str_le_of_lt hab
  · rcases hbc with hbc | rfl
    · exact str_le_of_lt hbc
    · exact str_le_refl a

/-- One step of the Python min() fold over strings: keep the current best
unless the next element is strictly smaller. -/
def py_min (best x : String) : String := if str_lt x best then x else best

theorem py_min_fold_mem : ∀ (cs : List String) (c : String),
    cs.foldl py_min c ∈ c :: cs := by
  intro cs
  induction cs with
  | nil => intro c; simp
  | cons x xs ih =>
    intro c
    rw [List.foldl_cons]
    have h := ih (py_min c x)
    rcases List.mem_cons.mp h with h1 | h1
    · rw [h1]
      by_cases hx : str_lt x c = true <;> simp [py_min, hx]
    · exact List.mem_cons.mpr (Or.inr (List.mem_cons.mpr (Or.inr h1)))

theorem py_min_le_left (c x : String) : str_le (py_min c x) c = true := by
  by_cases hx : str_lt x c = true
  · simp only [py_min, hx, if_true]
    exact str_le_of_lt hx
  · simp only [py_min, Bool.not_eq_true] at hx
    simp only [py_min, hx, Bool.false_eq_true, if_false]
    exact str_le_refl c

theorem py_min_le_right (c x : String) : str_le (py_min c x) x = true := by
  by_cases hx : str_lt x c = true
  · simp only [py_min, hx, if_true]
    exact str_le_refl x
  · simp only [py_min, Bool.not_eq_true] at hx
    simp only [py_min, hx, Bool.false_eq_true, if_false]
    exact str_le_of_not_lt hx

theorem py_min_fold_le : ∀ (cs : List String) (c x : String),
    x ∈ c :: cs → str_le (cs.foldl py_min c) x = true := by
  intro cs
  induction cs with
  | nil =>
    intro c x hx
    rw [List.foldl_nil]
    rcases List.mem_cons.mp hx with h | h
    · rw [h]
      exact str_le_refl c
    · exact absurd h (List.not_mem_nil x)
  | cons d ds ih =>
    intro c x hx
    rw [List.foldl_cons]
    by_cases hxc : x = c
    · subst hxc
      exact str_le_trans (ih (py_min x d) (py_min x d)
        (List.mem_cons_self _ _)) (py_min_le_left x d)
    · have hx1 : x ∈ d :: ds := (List.mem_cons.mp hx).resolve_left hxc
      by_cases hxd : x = d
      · subst hxd
        exact str_le_trans (ih (py_min c x) (py_min c x)
          (List.mem_cons_self _ _)) (py_min_le_right c x)
      · have hx2 : x ∈ ds := (List.mem_cons.mp hx1).resolve_left hxd
        exact ih (py_min c d) x (List.mem_cons.mpr (Or.inr hx2))

/-- Python dict lookup for a dict represented by its insertion list:
the last binding of a key wins. -/
def dget : List (String × String) → String → Option String
  | [], _ => none
  | (k, v) :: rest, key =>
    match dget rest key with
    | some r => some r
    | none => if k = key then some v else none

/-- Python truthiness of an optional string: None and the empty string are
falsy, every other string is truthy. -/
def py_truthy : Option String → Bool
  | some s => !(s == "")
  | none => false

/-- Evaluation of the Python comparison d <= processed_through when
processed_through may be absent (never reached on the falsy side). -/
def opt_le (d : String) : Option String → Bool
  | some p => str_le d p
  | none => false

/-- Evaluation of the Python comparison d > processed_through when
processed_through may be absent (never reached on the falsy side). -/
def opt_gt (d : String) : Option String → Bool
  | some p => str_lt p d
  | none => false

/-- Embedding of _find_earliest_change (src/main.py, lines 926-974).
Given the current (date, content) entries, the stored per-entry hash map
from the HASHES header line, and the processed-through date, it returns
some date (rebuild from there), some "append" (only new trailing entries,
the literal marker string the source also uses), or none (cache hit).
The Python sets existing_dates - current_dates, current_dates and
existing_dates, current_dates - existing_dates are realised as list
filters; only the minimum of the collected change points is observed, so
iteration order is irrelevant. -/
def current_map (hash_content : String → String)
    (entries : List (String × String)) : List (String × String) :=
  entries.map (fun e => (e.1, hash_content e.2))

/-- The change_points list accumulated by _find_earliest_change: dates
deleted from the stored map, dates whose hash changed, and new dates not
past processed_through. -/
def change_points (hash_content : String → String)
    (entries : List (String × String))
    (entry_hashes : List (String × String))
    (processed_through : Option String) : List String :=
  let current := current_map hash_content entries
  let current_dates := current.map Prod.fst
  let existing_dates := entry_hashes.map Prod.fst
  let deleted := existing_dates.filter (fun d => !(current_dates.contains d))
  let modified := current_dates.filter (fun d =>
    existing_dates.contains d && (dget current d != dget entry_hashes d))
  let inserted := current_dates.filter (fun d =>
    !(existing_dates.contains d) && (py_truthy processed_through
      && opt_le d processed_through))
  deleted ++ modified ++ inserted

def find_earliest_change (hash_content : String → String)
    (entries : List (String × String))
    (entry_hashes : List (String × String))
    (processed_through : Option String) : Option String :=
  match change_points hash_content entries entry_hashes processed_through with
  | c :: cs => some (cs.foldl py_min c)
  | [] =>
    if py_truthy processed_through
        && ((current_map hash_content entries).map Prod.fst).any
          (fun d => opt_gt d processed_through) then
      some "append"
    else
      none

/-- A concrete stand-in for hash_content used by witnesses: distinct short
contents get the fingerprints used in the spec scenarios. -/
def hashTest : String → String := fun s =>
  if s = "cA" then "abc"
  else if s = "cB" then "def"
  else if s = "cC" then "ghi"
  else "h-" ++ s

/-- Spec-side predicate, in the claim vocabulary: date d satisfies one of
the three rebuild conditions of the change detector: (a) d is in the
stored map but absent from the current entries (deleted), (b) d is
current and stored and its current fingerprint differs from the stored
one (edited), or (c) d is current, absent from the stored map, and not
past processed_through (inserted into history).  Condition (c) uses the
source's truthiness test on processed_through: comparing with an absent
or empty processed-through date never fires. -/
def qualifying_date (hash_content : String → String)
    (entries : List (String × String))
    (entry_hashes : List (String × String))
    (processed_through : Option String) (d : String) : Prop :=
  (d ∈ entry_hashes.map Prod.fst ∧ d ∉ entries.map Prod.fst)
  ∨ (d ∈ entries.map Prod.fst ∧ d ∈ entry_hashes.map Prod.fst ∧
      dget (current_map hash_content entries) d ≠ dget entry_hashes d)
  ∨ (d ∈ entries.map Prod.fst ∧ d ∉ entry_hashes.map Prod.fst ∧
      py_truthy processed_through = true ∧ opt_le d processed_through = true)

theorem current_map_dates (hash_content : String → String)
    (entries : List (String × String)) :
    (current_map hash_content entries).map Prod.fst = entries.map Prod.fst := by
  simp only [current_map, List.map_map]
  rfl

theorem contains_true_iff {α : Type} [BEq α] [LawfulBEq α]
    (l : List α) (a : α) : (l.contains a = true) ↔ a ∈ l :=
  List.elem_iff

theorem contains_false_iff {α : Type} [BEq α] [LawfulBEq α]
    (l : List α) (a : α) : (l.contains a = false) ↔ a ∉ l := by
  simp [Bool.eq_false_iff, contains_true_iff]

theorem mem_change_points_iff (hash_content : String → String)
    (entries entry_hashes : List (String × String))
    (processed_through : Option String) (d : String) :
    d ∈ change_points hash_content entries entry_hashes processed_through ↔
      qualifying_date hash_content entries entry_hashes processed_through d := by
  simp only [change_points, qualifying_date, List.mem_append, List.mem_filter,
    current_map_dates, Bool.and_eq_true, Bool.not_eq_true',
    contains_true_iff, contains_false_iff, bne_iff_ne, ne_eq]
  tauto

theorem qualifying_date_mem_either (hash_content : String → String)
    (entries entry_hashes : List (String × String))
    (processed_through : Option String) (d : String)
    (h : qualifying_date hash_content entries entry_hashes processed_through d) :
    d ∈ entries.map Prod.fst ∨ d ∈ entry_hashes.map Prod.fst := by
  rcases h with ⟨h1, _⟩ | ⟨h1, _⟩ | ⟨h1, _⟩
  · exact Or.inr h1
  · exact Or.inl h1
  · exact Or.inl h1

/-- C1: whenever at least one of the three rebuild conditions holds for
some date, _find_earliest_change returns exactly the minimum qualifying
date: a rebuild answer, never the append marker and never the cache-hit
answer None. -/
theorem find_earliest_change_returns_min_change
    (hash_content : String → String)
    (entries entry_hashes : List (String × String))
    (processed_through : Option String)
    (hq : ∃ d, qualifying_date hash_content entries entry_hashes
      processed_through d)
    (hmark : "append" ∉ entries.map Prod.fst ∧
      "append" ∉ entry_hashes.map Prod.fst) :
    ∃ m, find_earliest_change hash_content entries entry_hashes
        processed_through = some m
      ∧ qualifying_date hash_content entries entry_hashes processed_through m
      ∧ (∀ d, qualifying_date hash_content entries entry_hashes
          processed_through d → str_le m d = true)
      ∧ m ≠ "append" := by
  obtain ⟨d0, hd0⟩ := hq
  have hd0m : d0 ∈ change_points hash_content entries entry_hashes
      processed_through :=
    (mem_change_points_iff hash_content entries entry_hashes
      processed_through d0).mpr hd0
  cases hcp : change_points hash_content entries entry_hashes
      processed_through with
  | nil =>
    rw [hcp] at hd0m
    exact absurd hd0m (List.not_mem_nil d0)
  | cons c cs =>
    have hmem : cs.foldl py_min c ∈ change_points hash_content entries
        entry_hashes processed_through := by
      rw [hcp]
      exact py_min_fold_mem cs c
    have hqm := (mem_change_points_iff hash_content entries entry_hashes
      processed_through (cs.foldl py_min c)).mp hmem
    refine ⟨cs.foldl py_min c, ?_, hqm, ?_, ?_⟩
    · unfold find_earliest_change
      rw [hcp]
    · intro d hd
      have hdm : d ∈ change_points hash_content entries entry_hashes
          processed_through :=
        (mem_change_points_iff hash_content entries entry_hashes
          processed_through d).mpr hd
      rw [hcp] at hdm
      exact py_min_fold_le cs c d hdm
    · intro hbad
      rcases qualifying_date_mem_either hash_content entries entry_hashes
        processed_through _ hqm with hin | hin
      · exact hmark.1 (hbad ▸ hin)
      · exact hmark.2 (hbad ▸ hin)

/-- C1 witness: a concrete deleted entry (condition a) makes the detector
return the minimum qualifying date. -/
theorem find_earliest_change_returns_min_change_witness :
    ∃ m, find_earliest_change hashTest
        [("2024-01-02", "cB")]
        [("2024-01-01", "h0"), ("2024-01-02", "def")]
        (some "2024-01-02") = some m
      ∧ qualifying_date hashTest
          [("2024-01-02", "cB")]
          [("2024-01-01", "h0"), ("2024-01-02", "def")]
          (some "2024-01-02") m
      ∧ (∀ d, qualifying_date hashTest
          [("2024-01-02", "cB")]
          [("2024-01-01", "h0"), ("2024-01-02", "def")]
          (some "2024-01-02") d → str_le m d = true)
      ∧ m ≠ "append" :=
  find_earliest_change_returns_min_change hashTest
    [("2024-01-02", "cB")]
    [("2024-01-01", "h0"), ("2024-01-02", "def")]
    (some "2024-01-02")
    ⟨"2024-01-01", Or.inl (by decide)⟩
    (by decide)

/-- C2 counterexample: on the spec scenario (stored 2024-01-15=abc and
2024-01-16=def; current 2024-01-15 with hash abc and 2024-01-17 with hash
ghi; processed through 2024-01-16) the detector does not return
rebuild(2024-01-15): the only change point is the deleted 2024-01-16. -/
theorem find_earliest_change_scenario_not_jan15 :
    find_earliest_change hashTest
      [("2024-01-15", "cA"), ("2024-01-17", "cC")]
      [("2024-01-15", "abc"), ("2024-01-16", "def")]
      (some "2024-01-16") ≠ some "2024-01-15" := by
  decide

/-- C2 amended: on that scenario the detector returns rebuild(2024-01-16),
the date of the deleted entry — the minimum (indeed only) change point,
which is neither the no-op answer nor the append marker nor any date
later than 2024-01-16. -/
theorem find_earliest_change_scenario_jan16 :
    find_earliest_change hashTest
      [("2024-01-15", "cA"), ("2024-01-17", "cC")]
      [("2024-01-15", "abc"), ("2024-01-16", "def")]
      (some "2024-01-16") = some "2024-01-16" := by
  decide

/- ------------------------------------------------------------------
   Dependency cache: parse_deps_comment / format_deps_comment
   (src/main.py lines 151-172) and _check_needs_regeneration
   (src/main.py lines 621-642).
   ------------------------------------------------------------------ -/

theorem data_append (a b : String) : (a ++ b).data = a.data ++ b.data := by
  cases a
  cases b
  rfl

theorem mk_data (s : String) : String.mk s.data = s := by
  cases s
  rfl

/-- First element of Python str.splitlines (the empty string when there is
no line): everything before the first line-break character. -/
def first_line (s : String) : String :=
  ⟨s.data.takeWhile (fun c => !(c == '\n') && !(c == '\r'))⟩

/-- Python str.strip on a character list (the source only ever strips
ASCII whitespace). -/
def py_strip_chars (l : List Char) : List Char :=
  ((l.dropWhile Char.isWhitespace).reverse.dropWhile Char.isWhitespace).reverse

/-- Python str.strip. -/
def py_strip (s : String) : String := ⟨py_strip_chars s.data⟩

/-- Python str.rstrip. -/
def py_rstrip (s : String) : String :=
  ⟨(s.data.reverse.dropWhile Char.isWhitespace).reverse⟩

/-- Python str.split(sep) for a single-character separator (keeps empty
pieces, as Python does). -/
def split_on_char (sep : Char) : List Char → List (List Char)
  | [] => [[]]
  | c :: rest =>
    if c = sep then [] :: split_on_char sep rest
    else
      match split_on_char sep rest with
      | [] => [[c]]
      | p :: ps => (c :: p) :: ps

/-- Consume an exact literal prefix, returning the rest, or none. -/
def drop_exact : List Char → List Char → Option (List Char)
  | [], l => some l
  | _ :: _, [] => none
  | p :: ps, c :: cs => if c = p then drop_exact ps cs else none

/-- Test for the regex tail \s*--> at this position (the closing arrow can
only start right after the whitespace run, since it begins with a dash). -/
def deps_boundary (rest : List Char) : Bool :=
  "-->".data.isPrefixOf (rest.dropWhile Char.isWhitespace)

/-- The lazy group (.+?) of the DEPS regex followed by \s*-->: accumulate
characters one at a time and stop at the first position (with a nonempty
group) where the tail pattern matches. -/
def capture_scan (acc rest : List Char) : Option (List Char) :=
  if !(acc.isEmpty) && deps_boundary rest then some acc
  else
    match rest with
    | [] => none
    | c :: rs => capture_scan (acc ++ [c]) rs

/-- Backtracking for the greedy \s* that precedes the lazy group: try the
longest whitespace prefix first and fall back to shorter ones. -/
def backtrack_ws (r : List Char) : Nat → Option (List Char)
  | 0 => capture_scan [] r
  | j + 1 =>
    match capture_scan [] (r.drop (j + 1)) with
    | some cap => some cap
    | none => backtrack_ws r j

/-- Match of re.match applied to the source pattern for DEPS comments
against a whole line, returning the characters of group 1. -/
def match_deps_capture (l : List Char) : Option (List Char) :=
  match drop_exact "<!--".data l with
  | none => none
  | some r1 =>
    match drop_exact "DEPS:".data (r1.dropWhile Char.isWhitespace) with
    | none => none
    | some r2 => backtrack_ws r2 (r2.takeWhile Char.isWhitespace).length

/-- Embedding of parse_deps_comment (src/main.py lines 151-172): strip the
line, match the DEPS comment pattern, split the captured group on commas
and each piece at its first colon, stripping keys and values.  Returns the
empty dict when the pattern does not match. -/
def parse_pair_add (deps : List (String × String)) (pair : List Char) :
    List (String × String) :=
  if pair.contains ':' then
    deps ++ [(String.mk (py_strip_chars (pair.takeWhile (fun c => !(c == ':')))),
      String.mk (py_strip_chars ((pair.dropWhile (fun c => !(c == ':'))).drop 1)))]
  else
    deps

def parse_deps_comment (line : String) : List (String × String) :=
  match match_deps_capture (py_strip_chars line.data) with
  | none => []
  | some cap => (split_on_char ',' cap).foldl parse_pair_add []

/-- Python tuple comparison used by sorted(deps.items()): lexicographic on
(key, value). -/
def pair_le (a b : String × String) : Bool :=
  str_lt a.1 b.1 || (a.1 == b.1 && str_le a.2 b.2)

/-- Python sorted(deps.items()): a stable ascending sort of the pairs. -/
def sorted_pairs (deps : List (String × String)) : List (String × String) :=
  List.insertionSort (fun a b => pair_le a b = true) deps

/-- Comma join, as Python ",".flatten. -/
def join_comma : List String → String
  | [] => ""
  | [s] => s
  | s :: rest => s ++ "," ++ join_comma rest

/-- Embedding of format_deps_comment (src/main.py lines 169-172). -/
def format_deps_comment (deps : List (String × String)) : String :=
  "<!-- DEPS: " ++
    join_comma ((sorted_pairs deps).map (fun p => p.1 ++ ":" ++ p.2)) ++
    " -->"

/-- Embedding of _check_needs_regeneration (src/main.py lines 621-642)
over the artifact file content (none = the file does not exist). -/
def check_needs_regeneration (file : Option String)
    (expected_deps : List (String × String)) : Bool :=
  match file with
  | none => true
  | some text =>
    let existing_deps := parse_deps_comment (first_line text)
    if existing_deps.isEmpty then true
    else expected_deps.any (fun p => dget existing_deps p.1 != some p.2)

/-- Replacing the value stored at one key of a descriptor (the claim's
"changing exactly one key's value"). -/
def update_value (deps : List (String × String)) (k v' : String) :
    List (String × String) :=
  deps.map (fun p => if p.1 = k then (p.1, v') else p)

/-- Characters the cache descriptors are built from in the source: keys
are snake_case identifiers and values are hex hash prefixes or "none". -/
def deps_char_ok (c : Char) : Bool := c.isAlphanum || c == '_'

def deps_str_ok (s : String) : Bool := s.data.all deps_char_ok

/- Generic character-list lemmas used by the cache round-trip proof. -/

theorem dropWhile_cons_false {p : Char → Bool} {c : Char} {l : List Char}
    (h : p c = false) : (c :: l).dropWhile p = c :: l := by
  simp [List.dropWhile, h]

theorem dropWhile_all_false {p : Char → Bool} {l : List Char}
    (h : ∀ c ∈ l, p c = false) : l.dropWhile p = l := by
  cases l with
  | nil => rfl
  | cons c cs => exact dropWhile_cons_false (h c (List.mem_cons_self c cs))

theorem py_strip_chars_noop {l : List Char}
    (h1 : l.dropWhile Char.isWhitespace = l)
    (h2 : l.reverse.dropWhile Char.isWhitespace = l.reverse) :
    py_strip_chars l = l := by
  unfold py_strip_chars
  rw [h1, h2, List.reverse_reverse]

theorem py_strip_chars_all {l : List Char}
    (h : ∀ c ∈ l, c.isWhitespace = false) : py_strip_chars l = l := by
  refine py_strip_chars_noop (dropWhile_all_false h) (dropWhile_all_false ?_)
  intro c hc
  exact h c (List.mem_reverse.mp hc)

theorem takeWhile_append_all {p : Char → Bool} : ∀ {xs ys : List Char},
    (∀ x ∈ xs, p x = true) → (xs ++ ys).takeWhile p = xs ++ ys.takeWhile p := by
  intro xs
  induction xs with
  | nil => intro ys _; rfl
  | cons x xs ih =>
    intro ys h
    have hx : p x = true := h x (List.mem_cons_self x xs)
    simp only [List.cons_append, List.takeWhile_cons, hx, if_true]
    rw [ih (fun a ha => h a (List.mem_cons_of_mem x ha))]

theorem dropWhile_append_all {p : Char → Bool} : ∀ {xs ys : List Char},
    (∀ x ∈ xs, p x = true) → (xs ++ ys).dropWhile p = ys.dropWhile p := by
  intro xs
  induction xs with
  | nil => intro ys _; rfl
  | cons x xs ih =>
    intro ys h
    have hx : p x = true := h x (List.mem_cons_self x xs)
    simp only [List.cons_append, List.dropWhile_cons, hx, if_true]
    exact ih (fun a ha => h a (List.mem_cons_of_mem x ha))

theorem first_line_concat (s t : String)
    (h : ∀ c ∈ s.data, (!(c == '\n') && !(c == '\r')) = true) :
    first_line (s ++ "\n" ++ t) = s := by
  unfold first_line
  have e : (s ++ "\n" ++ t).data = s.data ++ ('\n' :: t.data) := by
    rw [data_append, data_append]
    simp [List.append_assoc]
  rw [e, takeWhile_append_all h]
  have : List.takeWhile (fun c => !(c == '\n') && !(c == '\r'))
      ('\n' :: t.data) = [] := by
    simp [List.takeWhile_cons]
  rw [this, List.append_nil, mk_data]

/- Character classification for descriptor contents. -/

theorem deps_char_not_ws {c : Char} (h : deps_char_ok c = true) :
    c.isWhitespace = false := by
  cases hw : c.isWhitespace with
  | false => rfl
  | true =>
    exfalso
    have hc : ((c = ' ' ∨ c = '\t') ∨ c = '\r') ∨ c = '\n' := by
      simpa [Char.isWhitespace] using hw
    rcases hc with ((rfl | rfl) | rfl) | rfl <;> exact absurd h (by decide)

theorem deps_char_ne_comma {c : Char} (h : deps_char_ok c = true) :
    c ≠ ',' := by
  intro hc
  subst hc
  exact absurd h (by decide)

theorem deps_char_ne_colon {c : Char} (h : deps_char_ok c = true) :
    c ≠ ':' := by
  intro hc
  subst hc
  exact absurd h (by decide)

theorem deps_char_ne_dash {c : Char} (h : deps_char_ok c = true) :
    c ≠ '-' := by
  intro hc
  subst hc
  exact absurd h (by decide)

theorem not_ws_ne_newline {c : Char} (h : c.isWhitespace = false) :
    (!(c == '\n') && !(c == '\r')) = true := by
  have h1 : c ≠ '\n' := by
    intro hc
    subst hc
    exact absurd h (by decide)
  have h2 : c ≠ '\r' := by
    intro hc
    subst hc
    exact absurd h (by decide)
  simp [h1, h2]

/- The DEPS regex on a well-formed formatted line. -/

theorem capture_scan_region : ∀ (R acc : List Char),
    (∀ c ∈ R, c.isWhitespace = false ∧ c ≠ '-') → acc ++ R ≠ [] →
    capture_scan acc (R ++ " -->".data) = some (acc ++ R) := by
  intro R
  induction R with
  | nil =>
    intro acc _ hne
    rw [List.append_nil] at hne ⊢
    cases acc with
    | nil => exact absurd rfl hne
    | cons a as =>
      unfold capture_scan
      have hb : deps_boundary " -->".data = true := by decide
      simp [hb]
  | cons c R' ih =>
    intro acc hok hne
    have hc := hok c (List.mem_cons_self c R')
    have hbf : deps_boundary ((c :: R') ++ " -->".data) = false := by
      unfold deps_boundary
      rw [List.cons_append, dropWhile_cons_false hc.1]
      have : ("-->".data.isPrefixOf (c :: (R' ++ " -->".data))) =
          (('-' == c) && ("->".data.isPrefixOf (R' ++ " -->".data))) := rfl
      rw [this]
      have hne2 : ('-' == c) = false := by
        cases hq : ('-' == c) with
        | false => rfl
        | true => exact absurd (beq_iff_eq.mp hq).symm hc.2
      rw [hne2, Bool.false_and]
    rw [List.cons_append]
    unfold capture_scan
    rw [List.cons_append] at hbf
    rw [hbf, Bool.and_false]
    simp only [if_false, Bool.false_eq_true]
    have := ih (acc ++ [c])
      (fun a ha => hok a (List.mem_cons_of_mem c ha))
      (by simp)
    rw [this, List.append_assoc]
    rfl

theorem match_deps_format (R : List Char) (hR : R ≠ [])
    (hok : ∀ c ∈ R, c.isWhitespace = false ∧ c ≠ '-') :
    match_deps_capture ("<!-- DEPS: ".data ++ R ++ " -->".data) = some R := by
  cases R with
  | nil => exact absurd rfl hR
  | cons c R' =>
    have hc := hok c (List.mem_cons_self c R')
    have e : match_deps_capture
        ("<!-- DEPS: ".data ++ (c :: R') ++ " -->".data)
        = backtrack_ws ((' ' :: c :: R') ++ " -->".data)
          (((' ' :: c :: R') ++ " -->".data).takeWhile
            Char.isWhitespace).length := rfl
    rw [e]
    have e4 : ((' ' :: c :: R') ++ " -->".data).takeWhile Char.isWhitespace
        = [' '] := by
      rw [List.cons_append, List.takeWhile_cons]
      simp only [List.cons_append, List.takeWhile_cons, hc.1]
      rfl
    rw [e4]
    show backtrack_ws ((' ' :: c :: R') ++ " -->".data) 1 = some (c :: R')
    unfold backtrack_ws
    have e5 : ((' ' :: c :: R') ++ " -->".data).drop 1
        = (c :: R') ++ " -->".data := rfl
    rw [e5, capture_scan_region (c :: R') [] hok (by simp)]
    rfl

theorem py_strip_chars_format (R : List Char) :
    py_strip_chars ("<!-- DEPS: ".data ++ R ++ " -->".data)
      = "<!-- DEPS: ".data ++ R ++ " -->".data := by
  refine py_strip_chars_noop ?_ ?_
  · have e1 : "<!-- DEPS: ".data ++ R ++ " -->".data
        = '<' :: ("!-- DEPS: ".data ++ R ++ " -->".data) := rfl
    rw [e1]
    exact dropWhile_cons_false (by decide)
  · have e2 : ("<!-- DEPS: ".data ++ R ++ " -->".data).reverse
        = '>' :: ('-' :: '-' :: ' ' :: ("<!-- DEPS: ".data ++ R).reverse) := by
      rw [List.reverse_append]
      rfl
    rw [e2]
    exact dropWhile_cons_false (by decide)

/- Splitting the captured group back into pairs. -/

theorem split_ne_nil (sep : Char) : ∀ (l : List Char),
    split_on_char sep l ≠ [] := by
  intro l
  induction l with
  | nil => simp [split_on_char]
  | cons c cs ih =>
    unfold split_on_char
    by_cases hc : c = sep
    · simp [hc]
    · simp only [hc, if_false]
      cases h : split_on_char sep cs with
      | nil => exact absurd h ih
      | cons p ps => simp

theorem split_no_sep {sep : Char} : ∀ {p : List Char},
    (∀ c ∈ p, c ≠ sep) → split_on_char sep p = [p] := by
  intro p
  induction p with
  | nil => intro _; rfl
  | cons c cs ih =>
    intro h
    unfold split_on_char
    have hc : ¬ c = sep := h c (List.mem_cons_self c cs)
    simp only [hc, if_false]
    rw [ih (fun a ha => h a (List.mem_cons_of_mem c ha))]

theorem split_append_no_sep {sep : Char} : ∀ {p l : List Char}
    {h : List Char} {t : List (List Char)},
    (∀ c ∈ p, c ≠ sep) → split_on_char sep l = h :: t →
    split_on_char sep (p ++ l) = (p ++ h) :: t := by
  intro p
  induction p with
  | nil =>
    intro l h t _ hl
    simpa using hl
  | cons c cs ih =>
    intro l h t hns hl
    have hc : ¬ c = sep := hns c (List.mem_cons_self c cs)
    rw [List.cons_append]
    unfold split_on_char
    simp only [hc, if_false]
    rw [ih (fun a ha => hns a (List.mem_cons_of_mem c ha)) hl]
    rfl

theorem split_join_comma : ∀ (strs : List String), strs ≠ [] →
    (∀ s ∈ strs, ∀ c ∈ s.data, c ≠ ',') →
    split_on_char ',' (join_comma strs).data = strs.map String.data := by
  intro strs
  induction strs with
  | nil => intro h _; exact absurd rfl h
  | cons s rest ih =>
    intro _ hns
    cases rest with
    | nil =>
      show split_on_char ',' s.data = [s.data]
      exact split_no_sep (hns s (List.mem_cons_self s []))
    | cons s2 rest2 =>
      have e : (join_comma (s :: s2 :: rest2)).data
          = s.data ++ (',' :: (join_comma (s2 :: rest2)).data) := by
        show (s ++ "," ++ join_comma (s2 :: rest2)).data = _
        rw [data_append, data_append]
        simp [List.append_assoc]
      rw [e]
      have hrest : split_on_char ',' (',' :: (join_comma (s2 :: rest2)).data)
          = [] :: ((s2 :: rest2).map String.data) := by
        unfold split_on_char
        rw [if_pos rfl, ih (by simp)
          (fun a ha => hns a (List.mem_cons_of_mem s ha))]
      rw [split_append_no_sep (hns s (List.mem_cons_self s _)) hrest,
        List.append_nil]
      rfl

/- Dict lookup lemmas. -/

theorem dget_none_iff : ∀ (l : List (String × String)) (k : String),
    dget l k = none ↔ k ∉ l.map Prod.fst := by
  intro l
  induction l with
  | nil => intro k; simp [dget]
  | cons p rest ih =>
    intro k
    obtain ⟨k', v'⟩ := p
    simp only [dget, List.map_cons, List.mem_cons]
    cases hr : dget rest k with
    | some r =>
      have hk : k ∈ List.map Prod.fst rest := by
        by_contra hmem
        have := (ih k).mpr hmem
        rw [hr] at this
        cases this
      simp [hk]
    | none =>
      by_cases hkk : k' = k
      · subst hkk
        simp
      · have hk : k ∉ List.map Prod.fst rest := (ih k).mp hr
        have hkk2 : ¬ k = k' := fun h => hkk h.symm
        simp [hkk, hkk2, hk]

theorem mem_of_dget_some {l : List (String × String)} {k v : String}
    (h : dget l k = some v) : k ∈ l.map Prod.fst := by
  by_contra hk
  rw [(dget_none_iff l k).mpr hk] at h
  cases h

theorem dget_some_iff_nodup : ∀ {l : List (String × String)},
    (l.map Prod.fst).Nodup → ∀ {k v : String},
    (dget l k = some v ↔ (k, v) ∈ l) := by
  intro l
  induction l with
  | nil =>
    intro _ k v
    simp [dget]
  | cons p rest ih =>
    intro hnd k v
    obtain ⟨k', v'⟩ := p
    rw [List.map_cons, List.nodup_cons] at hnd
    simp only [dget, List.mem_cons]
    cases hr : dget rest k with
    | some r =>
      have hkr : k ∈ List.map Prod.fst rest := mem_of_dget_some hr
      have hkne : k ≠ k' := fun he => hnd.1 (he ▸ hkr)
      constructor
      · intro hv
        have hvr : v = r := (Option.some.inj hv).symm
        exact Or.inr ((ih hnd.2).mp (hvr ▸ hr))
      · intro hm
        rcases hm with he | hm
        · exact absurd (congrArg Prod.fst he) hkne
        · rw [(ih hnd.2).mpr hm] at hr
          rw [hr]
    | none =>
      by_cases hkk : k' = k
      · subst hkk
        constructor
        · intro hv
          rw [if_pos rfl] at hv
          have hvv : v' = v := Option.some.inj hv
          exact Or.inl (by rw [hvv])
        · intro hm
          rw [if_pos rfl]
          rcases hm with he | hm
          · injection he with h1 h2
            rw [h2]
          · exfalso
            exact hnd.1 (List.mem_map.mpr ⟨(k', v), hm, rfl⟩)
      · rw [if_neg hkk]
        constructor
        · intro hv
          cases hv
        · intro hm
          rcases hm with he | hm
          · exact absurd (congrArg Prod.fst he).symm hkk
          · rw [(ih hnd.2).mpr hm] at hr
            cases hr

theorem dget_perm {l l' : List (String × String)} (hperm : l.Perm l')
    (hnd : (l.map Prod.fst).Nodup) (k : String) : dget l k = dget l' k := by
  have hnd' : (l'.map Prod.fst).Nodup := ((hperm.map Prod.fst).nodup_iff).mp hnd
  cases h : dget l k with
  | some v =>
    have hm := (dget_some_iff_nodup hnd).mp h
    exact ((dget_some_iff_nodup hnd').mpr (hperm.mem_iff.mp hm)).symm
  | none =>
    have hk := (dget_none_iff l k).mp h
    have hk' : k ∉ l'.map Prod.fst :=
      fun hm => hk (((hperm.map Prod.fst).mem_iff).mpr hm)
    exact ((dget_none_iff l' k).mpr hk').symm

/- Extracting one key:value pair from a comma piece. -/

theorem parse_pair_add_pair (deps : List (String × String)) (k v : String)
    (hk : deps_str_ok k = true) (hv : deps_str_ok v = true) :
    parse_pair_add deps (k ++ ":" ++ v).data = deps ++ [(k, v)] := by
  have hkchars : ∀ c ∈ k.data, deps_char_ok c = true :=
    fun c hc => List.all_eq_true.mp hk c hc
  have hvchars : ∀ c ∈ v.data, deps_char_ok c = true :=
    fun c hc => List.all_eq_true.mp hv c hc
  have hdata : (k ++ ":" ++ v).data = k.data ++ (':' :: v.data) := by
    rw [data_append, data_append]
    simp [List.append_assoc]
  have hknocolon : ∀ c ∈ k.data, (!(c == ':')) = true := by
    intro c hc
    have := deps_char_ne_colon (hkchars c hc)
    simp [this]
  have hcontains : (k.data ++ (':' :: v.data)).contains ':' = true :=
    (contains_true_iff _ ':').mpr (List.mem_append.mpr
      (Or.inr (List.mem_cons_self ':' v.data)))
  have htake : (k.data ++ (':' :: v.data)).takeWhile
      (fun c => !(c == ':')) = k.data := by
    rw [takeWhile_append_all hknocolon]
    simp [List.takeWhile_cons]
  have hdrop : ((k.data ++ (':' :: v.data)).dropWhile
      (fun c => !(c == ':'))).drop 1 = v.data := by
    rw [dropWhile_append_all hknocolon, dropWhile_cons_false (by simp)]
    rfl
  unfold parse_pair_add
  rw [hdata, if_pos hcontains, htake, hdrop,
    py_strip_chars_all (fun c hc => deps_char_not_ws (hkchars c hc)),
    py_strip_chars_all (fun c hc => deps_char_not_ws (hvchars c hc)),
    mk_data, mk_data]

theorem foldl_parse_pairs : ∀ (ps : List (String × String))
    (init : List (String × String)),
    (∀ p ∈ ps, deps_str_ok p.1 = true ∧ deps_str_ok p.2 = true) →
    ((ps.map (fun p => p.1 ++ ":" ++ p.2)).map String.data).foldl
      parse_pair_add init = init ++ ps := by
  intro ps
  induction ps with
  | nil =>
    intro init _
    simp
  | cons p rest ih =>
    intro init hok
    obtain ⟨k, v⟩ := p
    have hp := hok (k, v) (List.mem_cons_self _ _)
    simp only [List.map_cons, List.foldl_cons]
    rw [parse_pair_add_pair init k v hp.1 hp.2,
      ih (init ++ [(k, v)]) (fun q hq => hok q (List.mem_cons_of_mem _ hq)),
      List.append_assoc]
    rfl

/- Assembling the round trip parse (format deps) = sorted deps. -/

theorem mem_join_comma : ∀ (strs : List String) (c : Char),
    c ∈ (join_comma strs).data → (∃ s ∈ strs, c ∈ s.data) ∨ c = ',' := by
  intro strs
  induction strs with
  | nil => intro c hc; cases hc
  | cons s rest ih =>
    intro c hc
    cases rest with
    | nil =>
      exact Or.inl ⟨s, List.mem_cons_self s [], hc⟩
    | cons s2 rest2 =>
      have e : (join_comma (s :: s2 :: rest2)).data
          = s.data ++ (',' :: (join_comma (s2 :: rest2)).data) := by
        show (s ++ "," ++ join_comma (s2 :: rest2)).data = _
        rw [data_append, data_append]
        simp [List.append_assoc]
      rw [e] at hc
      rcases List.mem_append.mp hc with h | h
      · exact Or.inl ⟨s, List.mem_cons_self s _, h⟩
      · rcases List.mem_cons.mp h with h | h
        · exact Or.inr h
        · rcases ih c h with ⟨s', hs', hc'⟩ | h
          · exact Or.inl ⟨s', List.mem_cons_of_mem s hs', hc'⟩
          · exact Or.inr h

theorem mem_pair_str {k v : String} {c : Char}
    (hc : c ∈ (k ++ ":" ++ v).data) :
    c ∈ k.data ∨ c = ':' ∨ c ∈ v.data := by
  have hdata : (k ++ ":" ++ v).data = k.data ++ (':' :: v.data) := by
    rw [data_append, data_append]
    simp [List.append_assoc]
  rw [hdata] at hc
  rcases List.mem_append.mp hc with h | h
  · exact Or.inl h
  · rcases List.mem_cons.mp h with h | h
    · exact Or.inr (Or.inl h)
    · exact Or.inr (Or.inr h)

theorem append_cons_ne_nil {a : List Char} {c : Char} {l : List Char} :
    a ++ (c :: l) ≠ [] := by
  cases a <;> simp

theorem parse_format_roundtrip (deps : List (String × String))
    (hok : ∀ p ∈ deps, deps_str_ok p.1 = true ∧ deps_str_ok p.2 = true)
    (hne : deps ≠ []) :
    parse_deps_comment (format_deps_comment deps) = sorted_pairs deps := by
  have hperm : (sorted_pairs deps).Perm deps :=
    List.perm_insertionSort _ deps
  have hoks : ∀ p ∈ sorted_pairs deps,
      deps_str_ok p.1 = true ∧ deps_str_ok p.2 = true :=
    fun p hp => hok p (hperm.mem_iff.mp hp)
  have hsne : sorted_pairs deps ≠ [] := by
    intro h
    apply hne
    have hlen := hperm.length_eq
    rw [h] at hlen
    exact List.length_eq_zero.mp hlen.symm
  -- the joined pair region and its character classification
  have hstr_ok : ∀ s ∈ (sorted_pairs deps).map (fun p => p.1 ++ ":" ++ p.2),
      ∀ c ∈ s.data, deps_char_ok c = true ∨ c = ':' := by
    intro s hs c hc
    obtain ⟨p, hp, rfl⟩ := List.mem_map.mp hs
    rcases mem_pair_str hc with h | h | h
    · exact Or.inl (List.all_eq_true.mp (hoks p hp).1 c h)
    · exact Or.inr h
    · exact Or.inl (List.all_eq_true.mp (hoks p hp).2 c h)
  have hregion : ∀ c ∈ (join_comma ((sorted_pairs deps).map
      (fun p => p.1 ++ ":" ++ p.2))).data,
      c.isWhitespace = false ∧ c ≠ '-' := by
    intro c hc
    rcases mem_join_comma _ c hc with ⟨s, hs, hcs⟩ | rfl
    · rcases hstr_ok s hs c hcs with h | rfl
      · exact ⟨deps_char_not_ws h, deps_char_ne_dash h⟩
      · exact ⟨by decide, by decide⟩
    · exact ⟨by decide, by decide⟩
  have hRne : (join_comma ((sorted_pairs deps).map
      (fun p => p.1 ++ ":" ++ p.2))).data ≠ [] := by
    cases hs : sorted_pairs deps with
    | nil => exact absurd hs hsne
    | cons p rest =>
      cases rest with
      | nil =>
        show (p.1 ++ ":" ++ p.2).data ≠ []
        have : (p.1 ++ ":" ++ p.2).data = p.1.data ++ (':' :: p.2.data) := by
          rw [data_append, data_append]
          simp [List.append_assoc]
        rw [this]
        exact append_cons_ne_nil
      | cons q rest2 =>
        show (((p.1 ++ ":" ++ p.2) ++ "," ++ join_comma _)).data ≠ []
        rw [data_append, data_append]
        intro hcontra
        simp at hcontra
  have hformat : (format_deps_comment deps).data
      = "<!-- DEPS: ".data ++ (join_comma ((sorted_pairs deps).map
        (fun p => p.1 ++ ":" ++ p.2))).data ++ " -->".data := by
    unfold format_deps_comment
    rw [data_append, data_append]
  unfold parse_deps_comment
  rw [hformat, py_strip_chars_format, match_deps_format _ hRne hregion]
  show (split_on_char ',' (join_comma ((sorted_pairs deps).map
      (fun p => p.1 ++ ":" ++ p.2))).data).foldl parse_pair_add []
    = sorted_pairs deps
  have hnocomma : ∀ s ∈ (sorted_pairs deps).map (fun p => p.1 ++ ":" ++ p.2),
      ∀ c ∈ s.data, c ≠ ',' := by
    intro s hs c hc
    rcases hstr_ok s hs c hc with h | rfl
    · exact deps_char_ne_comma h
    · decide
  rw [split_join_comma _ (by simpa using hsne) hnocomma]
  exact foldl_parse_pairs (sorted_pairs deps) [] hoks

theorem format_chars_no_newline (deps : List (String × String))
    (hok : ∀ p ∈ deps, deps_str_ok p.1 = true ∧ deps_str_ok p.2 = true) :
    ∀ c ∈ (format_deps_comment deps).data,
      (!(c == '\n') && !(c == '\r')) = true := by
  intro c hc
  have hperm : (sorted_pairs deps).Perm deps :=
    List.perm_insertionSort _ deps
  have hoks : ∀ p ∈ sorted_pairs deps,
      deps_str_ok p.1 = true ∧ deps_str_ok p.2 = true :=
    fun p hp => hok p (hperm.mem_iff.mp hp)
  have hformat : (format_deps_comment deps).data
      = "<!-- DEPS: ".data ++ (join_comma ((sorted_pairs deps).map
        (fun p => p.1 ++ ":" ++ p.2))).data ++ " -->".data := by
    unfold format_deps_comment
    rw [data_append, data_append]
  rw [hformat] at hc
  have hlit1 : ∀ a ∈ "<!-- DEPS: ".data, (!(a == '\n') && !(a == '\r')) = true := by
    decide
  have hlit2 : ∀ a ∈ " -->".data, (!(a == '\n') && !(a == '\r')) = true := by
    decide
  rcases List.mem_append.mp hc with h | h
  · rcases List.mem_append.mp h with h | h
    · exact hlit1 c h
    · rcases mem_join_comma _ c h with ⟨s, hs, hcs⟩ | rfl
      · obtain ⟨p, hp, rfl⟩ := List.mem_map.mp hs
        rcases mem_pair_str hcs with h2 | rfl | h2
        · exact not_ws_ne_newline
            (deps_char_not_ws (List.all_eq_true.mp (hoks p hp).1 c h2))
        · decide
        · exact not_ws_ne_newline
            (deps_char_not_ws (List.all_eq_true.mp (hoks p hp).2 c h2))
      · decide
  · exact hlit2 c h

/-- C5 counterexample: the staleness check is not false for every
descriptor after a write.  With the empty descriptor the written line
is <!-- DEPS:  --> whose captured group contains no colon, so the parsed
dict is empty and the check reports stale; with a comma inside a value
the round trip splits at the comma and the check also reports stale. -/
theorem check_needs_regeneration_not_every_descriptor :
    check_needs_regeneration
        (some (format_deps_comment [] ++ "\n" ++ "payload")) [] = true
    ∧ check_needs_regeneration
        (some (format_deps_comment [("a", "b,c")] ++ "\n" ++ "payload"))
        [("a", "b,c")] = true := by
  constructor <;> decide

/-- C5 amended: for every nonempty descriptor whose keys and values are
made of identifier characters (letters, digits, underscore — the shape
every descriptor in the source has: snake_case keys, hex hash prefixes or
"none" as values) with distinct keys, the artifact written as the
serialized descriptor line plus payload is not stale under the same
descriptor; and changing the stored value of any one key to anything
different makes it stale. -/
theorem check_needs_regeneration_cache_correct
    (deps : List (String × String)) (payload : String)
    (hne : deps ≠ [])
    (hnodup : (deps.map Prod.fst).Nodup)
    (hok : ∀ p ∈ deps, deps_str_ok p.1 = true ∧ deps_str_ok p.2 = true) :
    check_needs_regeneration
        (some (format_deps_comment deps ++ "\n" ++ payload)) deps = false
    ∧ ∀ k v', k ∈ deps.map Prod.fst → dget deps k ≠ some v' →
        check_needs_regeneration
          (some (format_deps_comment deps ++ "\n" ++ payload))
          (update_value deps k v') = true := by
  have hperm : (sorted_pairs deps).Perm deps :=
    List.perm_insertionSort _ deps
  have hnds : ((sorted_pairs deps).map Prod.fst).Nodup :=
    ((hperm.map Prod.fst).nodup_iff).mpr hnodup
  have hparse : parse_deps_comment (first_line
      (format_deps_comment deps ++ "\n" ++ payload)) = sorted_pairs deps := by
    rw [first_line_concat _ _ (format_chars_no_newline deps hok),
      parse_format_roundtrip deps hok hne]
  have hsne : sorted_pairs deps ≠ [] := by
    intro h
    apply hne
    have hlen := hperm.length_eq
    rw [h] at hlen
    exact List.length_eq_zero.mp hlen.symm
  have hempty : (sorted_pairs deps).isEmpty = false := by
    cases hs : sorted_pairs deps with
    | nil => exact absurd hs hsne
    | cons p rest => rfl
  have hlookup : ∀ q : String, dget (sorted_pairs deps) q = dget deps q :=
    fun q => dget_perm hperm hnds q
  constructor
  · show (if (parse_deps_comment (first_line
        (format_deps_comment deps ++ "\n" ++ payload))).isEmpty then true
      else deps.any (fun p => dget (parse_deps_comment (first_line
        (format_deps_comment deps ++ "\n" ++ payload))) p.1 != some p.2))
      = false
    rw [hparse]
    simp only [hempty, Bool.false_eq_true, if_false]
    rw [List.any_eq_false]
    intro p hp
    rw [hlookup p.1, (dget_some_iff_nodup hnodup).mpr hp]
    simp
  · intro k v' hkmem hvne
    show (if (parse_deps_comment (first_line
        (format_deps_comment deps ++ "\n" ++ payload))).isEmpty then true
      else (update_value deps k v').any (fun p => dget (parse_deps_comment
        (first_line (format_deps_comment deps ++ "\n" ++ payload)))
          p.1 != some p.2))
      = true
    rw [hparse]
    simp only [hempty, Bool.false_eq_true, if_false]
    rw [List.any_eq_true]
    obtain ⟨p, hp, hpk⟩ := List.mem_map.mp hkmem
    refine ⟨(k, v'), ?_, ?_⟩
    · unfold update_value
      exact List.mem_map.mpr ⟨p, hp, by rw [if_pos hpk, hpk]⟩
    · rw [hlookup k]
      exact bne_iff_ne.mpr hvne

/-- C5 witness: a concrete two-key descriptor round-trips as not stale,
and bumping one value makes it stale. -/
theorem check_needs_regeneration_cache_correct_witness :
    check_needs_regeneration
        (some (format_deps_comment [("labs", "abc123"), ("raw", "def456")]
          ++ "\n" ++ "Timeline")) [("labs", "abc123"), ("raw", "def456")]
      = false
    ∧ check_needs_regeneration
        (some (format_deps_comment [("labs", "abc123"), ("raw", "def456")]
          ++ "\n" ++ "Timeline"))
        (update_value [("labs", "abc123"), ("raw", "def456")] "raw" "zzz")
      = true :=
  ⟨(check_needs_regeneration_cache_correct
      [("labs", "abc123"), ("raw", "def456")] "Timeline"
      (by decide) (by decide) (by decide)).1,
   (check_needs_regeneration_cache_correct
      [("labs", "abc123"), ("raw", "def456")] "Timeline"
      (by decide) (by decide) (by decide)).2
    "raw" "zzz" (by decide) (by decide)⟩

/- ------------------------------------------------------------------
   Timeline validator (src/validate_timeline.py).

   The validators consume the timeline through pandas
   (pd.read_csv(path, comment = the hash sign)); that parsing step is an
   external collaborator.  The embedding works on the parsed frame: a
   Row per CSV data row.  Columns the validators guard with dropna /
   notna / str() (EpisodeID, RelatedEpisode, Details) are Option String
   (none = NaN); Date, Item, Category, Event are taken as present, which
   holds for every row the builder writes.  validate_csv_structure reads
   the raw file text instead and is embedded over the text. -/

structure Row where
  date : String
  episodeID : Option String
  item : String
  category : String
  event : String
  relatedEpisode : Option String
  details : Option String
deriving DecidableEq

/-- Python str() of a Details cell: NaN prints as "nan". -/
def details_str (r : Row) : String :=
  match r.details with
  | some s => s
  | none => "nan"

/-- Python str() of an optional EpisodeID cell. -/
def opt_str (o : Option String) : String :=
  match o with
  | some s => s
  | none => "nan"

/-- Python "needle in hay" substring test. -/
def has_substr (needle : List Char) : List Char → Bool
  | [] => needle.isEmpty
  | l@(_ :: t) => needle.isPrefixOf l || has_substr needle t

/-- Python startswith. -/
def starts_with (pre s : String) : Bool := pre.data.isPrefixOf s.data

/-- pandas Series.unique(): distinct values in order of first
appearance (structured with a seen accumulator). -/
def uniq_aux {α : Type} [DecidableEq α] : List α → List α → List α
  | _, [] => []
  | seen, a :: rest =>
    if seen.contains a then uniq_aux seen rest
    else a :: uniq_aux (a :: seen) rest

def uniqFirst {α : Type} [DecidableEq α] (l : List α) : List α :=
  uniq_aux [] l

/-- pandas NaN-aware equality: comparing with NaN is always False. -/
def pandas_eq : Option String → Option String → Bool
  | some a, some b => a == b
  | _, _ => false

/-- Python sorted() on strings. -/
def sort_strings (l : List String) : List String :=
  List.insertionSort (fun a b => str_le a b = true) l

/-- Python list.sort() on ints. -/
def sort_nats (l : List Nat) : List Nat :=
  List.insertionSort (fun a b => a ≤ b) l

/-- pandas sort_values on the Date column (stable in this embedding; the
source uses the default quicksort, which can reorder rows that share a
date — no validator result proved here depends on that order). -/
def sort_rows_by_date (rows : List Row) : List Row :=
  List.insertionSort (fun a b => str_le a.date b.date = true) rows

def digits_to_nat (ds : List Char) : Nat :=
  ds.foldl (fun n c => n * 10 + (c.toNat - '0'.toNat)) 0

/-- re.match of the pattern ep-(digits) against an episode id: anchored
at the start, group 1 is the maximal leading digit run. -/
def epNum (s : String) : Option Nat :=
  match s.data with
  | 'e' :: 'p' :: '-' :: rest =>
    let ds := rest.takeWhile Char.isDigit
    if ds.isEmpty then none else some (digits_to_nat ds)
  | _ => none

/-- Python formatting of an episode number with percent-03d. -/
def pad3 (n : Nat) : String :=
  if n < 10 then "00" ++ toString n
  else if n < 100 then "0" ++ toString n
  else toString n

def join_with (sep : String) : List String → String
  | [] => ""
  | [s] => s
  | s :: rest => s ++ sep ++ join_with sep rest

/-- The gap loop of validate_episode_continuity over the sorted episode
numbers. -/
def gap_errors : List Nat → List String
  | a :: b :: rest =>
    (if b - a > 1 then
      ["Episode ID gap: ep-" ++ pad3 a ++ " → ep-" ++ pad3 b]
    else []) ++ gap_errors (b :: rest)
  | _ => []

/-- Embedding of validate_episode_continuity
(src/validate_timeline.py lines 10-43). -/
def validate_episode_continuity (rows : List Row) : List String :=
  let episode_nums :=
    (rows.filterMap (fun r => r.episodeID)).filterMap epNum
  let clean := rows.filter (fun r => r.episodeID.isSome)
  gap_errors (sort_nats episode_nums) ++
    ((uniqFirst (clean.filterMap (fun r => r.episodeID))).map (fun ep =>
      let items := uniqFirst
        ((clean.filter (fun r => r.episodeID == some ep)).map
          (fun r => r.item))
      if items.length > 1 then
        ["Episode " ++ ep ++ " used for different items: " ++
          join_with ", " items]
      else [])).flatten

/-- Embedding of validate_related_episodes
(src/validate_timeline.py lines 46-64). -/
def validate_related_episodes (rows : List Row) : List String :=
  let all_episodes := rows.filterMap (fun r => r.episodeID)
  (rows.enum.map (fun p =>
    match p.2.relatedEpisode with
    | none => []
    | some rel =>
      if py_strip rel ≠ "" then
        if all_episodes.contains rel then []
        else
          ["Line " ++ toString (p.1 + 2) ++ ": " ++ p.2.date ++ " " ++
            p.2.item ++ " - RelatedEpisode \x27" ++ rel ++
            "\x27 does not exist"]
      else [])).flatten

/-- Lines of Python file iteration: pieces end with the newline, a final
piece without one is kept, an empty final piece is not a line. -/
def keepends : List (List Char) → List String
  | [] => []
  | [p] => if p.isEmpty then [] else [String.mk p]
  | p :: rest => String.mk (p ++ ['\n']) :: keepends rest

def file_lines (text : String) : List String :=
  keepends (split_on_char '\n' text.data)

/-- One CSV record of the default dialect, for records that stay on one
line: commas split fields, double quotes toggle quoting and are not
emitted.  (Embedded quotes and multi-line quoted fields do not occur in
timelines and are not exercised by any theorem.) -/
def csv_split : List Char → Bool → List Char → List (List Char)
  | [], _, cur => [cur]
  | c :: rest, inq, cur =>
    if c = '"' then csv_split rest (!inq) cur
    else if c = ',' ∧ inq = false then cur :: csv_split rest false []
    else csv_split rest inq (cur ++ [c])

def csv_record (l : String) : List String :=
  (csv_split ((l.data.reverse.dropWhile
    (fun c => c == '\n' || c == '\r')).reverse) false []).map String.mk

/-- Embedding of validate_csv_structure
(src/validate_timeline.py lines 67-90). -/
def validate_csv_structure (text : String) : List String :=
  let lines := (file_lines text).filter (fun l => !(starts_with "#" l))
  if lines.isEmpty then ["Timeline is empty"]
  else
    (if !(starts_with "Date," (py_strip (lines.headD ""))) then
      ["Missing or invalid header. Expected: Date,EpisodeID,Item,Category,Event,RelatedEpisode,Details"]
    else []) ++
    (((lines.drop 1).map csv_record).enum.map (fun p =>
      if p.2.length ≠ 7 then
        ["Line " ++ toString (p.1 + 2) ++ ": Expected 7 columns, got " ++
          toString p.2.length]
      else [])).flatten

/-- The first adjacent inversion of the Date column. -/
def first_inversion : List String → Nat → Option (String × String × Nat)
  | a :: b :: rest, i =>
    if str_lt b a then some (a, b, i) else first_inversion (b :: rest) (i + 1)
  | _, _ => none

/-- Embedding of validate_chronological_order
(src/validate_timeline.py lines 93-111). -/
def validate_chronological_order (rows : List Row) : List String :=
  let dates := rows.map (fun r => r.date)
  if dates ≠ sort_strings dates then
    match first_inversion dates 0 with
    | some (a, b, i) =>
      ["Out of order: " ++ a ++ " followed by " ++ b ++ " (lines " ++
        toString (i + 2) ++ ", " ++ toString (i + 3) ++ ")"]
    | none => []
  else []

def terminal_events : List String := ["stopped", "resolved", "ended", "completed"]

/-- The per-episode body of validate_episode_state_consistency: sort the
episode rows by date, find the first terminal row, and report every row
dated strictly after it. -/
def state_branch (rows : List Row) (ep : String) : List String :=
  match (sort_rows_by_date
      (rows.filter (fun r => r.episodeID == some ep))).filter
        (fun r => terminal_events.contains r.event) with
  | [] => []
  | t0 :: _ =>
    match sort_rows_by_date (rows.filter (fun r => r.episodeID == some ep)) with
    | [] => []
    | r0 :: _ =>
      ((sort_rows_by_date (rows.filter (fun r => r.episodeID == some ep))).filter
        (fun r => str_lt t0.date r.date)).map (fun r =>
        ep ++ " (" ++ r0.item ++ "): Event \x27" ++ r.event ++ "\x27 on "
          ++ r.date ++ " after terminal event \x27" ++ t0.event ++
          "\x27 on " ++ t0.date)

/-- Embedding of validate_episode_state_consistency
(src/validate_timeline.py lines 114-147). -/
def validate_episode_state_consistency (rows : List Row) : List String :=
  ((uniqFirst (rows.filterMap (fun r => r.episodeID))).map
    (state_branch rows)).flatten

def stack_categories : List String := ["supplement", "medication", "experiment"]

/-- Embedding of validate_comprehensive_stack_updates
(src/validate_timeline.py lines 150-222).  The entries_dir parameter of
the source is unused in its body and omitted here.  When an episode id
drawn from active_before is NaN, the source would raise IndexError at
iloc[0] (the NaN-equality filter returns no rows); that branch is
modelled as producing no report and is not exercised by any theorem. -/
def validate_comprehensive_stack_updates (rows : List Row) : List String :=
  let stack_update_dates := sort_strings (uniqFirst
    ((rows.filter (fun r =>
      has_substr "[STACK_UPDATE]".data (details_str r).data)).map
        (fun r => r.date)))
  (stack_update_dates.map (fun update_date =>
    let updates_on_date := rows.filter (fun r =>
      r.date == update_date && (r.event == "stopped" || r.event == "ended"))
    let missing_marker := (updates_on_date.filter (fun r =>
      !(has_substr "[STACK_UPDATE]".data (details_str r).data) &&
        stack_categories.contains r.category)).map (fun r =>
          r.item ++ " (" ++ opt_str r.episodeID ++ ")")
    let marker_errors :=
      if missing_marker ≠ [] then
        ["Date " ++ update_date ++
          ": Some stopped/ended items lack [STACK_UPDATE] marker: " ++
          join_with ", " (missing_marker.take 3)]
      else []
    let active_before := uniqFirst ((rows.filter (fun r =>
      str_lt r.date update_date && stack_categories.contains r.category &&
        r.event == "started")).map (fun r => r.episodeID))
    let item_errors := (active_before.map (fun ep_id =>
      match rows.filter (fun r => pandas_eq r.episodeID ep_id) with
      | [] => []
      | r0 :: rest =>
        let ep_rows := r0 :: rest
        let stopped_event :=
          if r0.category == "supplement" || r0.category == "medication"
          then "stopped" else "ended"
        let stopped := ep_rows.filter (fun r =>
          r.event == stopped_event && str_le r.date update_date)
        if stopped.isEmpty then
          let continued := rows.filter (fun r =>
            r.date == update_date && r.item == r0.item &&
              r.event == "started")
          if continued.isEmpty then
            ["Comprehensive update " ++ update_date ++ ": " ++ r0.item ++
              " (" ++ opt_str ep_id ++
              ") started earlier but not stopped/ended or continued"]
          else []
        else [])).flatten
    marker_errors ++ item_errors)).flatten

/-- Embedding of run_all_validations
(src/validate_timeline.py lines 225-257).  The frame rows is the pandas
parse of text; entries_dir is none when not passed, some b with b the
result of the exists() test otherwise. -/
def run_all_validations (timeline_path : String) (timeline_exists : Bool)
    (text : String) (rows : List Row) (entries_dir : Option Bool) :
    List (String × List String) :=
  if timeline_exists = false then
    [("error", ["Timeline file not found: " ++ timeline_path])]
  else
    let results := [("episode_continuity", validate_episode_continuity rows),
      ("related_episodes", validate_related_episodes rows),
      ("csv_structure", validate_csv_structure text),
      ("chronological_order", validate_chronological_order rows),
      ("episode_state_consistency", validate_episode_state_consistency rows)]
    match entries_dir with
    | some true =>
      results ++
        [("comprehensive_stack_updates",
          validate_comprehensive_stack_updates rows)]
    | _ => results

def critical_checks : List String :=
  ["episode_continuity", "csv_structure", "chronological_order",
    "episode_state_consistency"]

/-- Embedding of get_validation_severity
(src/validate_timeline.py lines 260-275). -/
def get_validation_severity (check_name : String) : String :=
  if critical_checks.contains check_name then "critical" else "warning"

/- Order lemmas used to compare the sorted first terminal row with the
minimum terminal date. -/

theorem str_le_antisymm {a b : String} (hab : str_le a b = true)
    (hba : str_le b a = true) : a = b := by
  simp only [str_le, Bool.or_eq_true, beq_iff_eq] at hab hba
  rcases hab with h1 | h
  · rcases hba with h2 | h
    · exfalso
      have := lexLt_trans h1 h2
      rw [lexLt_irrefl] at this
      exact absurd this (by simp)
    · exact h.symm
  · exact h

theorem str_le_total (a b : String) :
    str_le a b = true ∨ str_le b a = true := by
  cases h : str_lt a b with
  | true => exact Or.inl (str_le_of_lt h)
  | false => exact Or.inr (str_le_of_not_lt h)

theorem py_min_fold_perm {a : String} {as : List String} {b : String}
    {bs : List String} (h : (a :: as).Perm (b :: bs)) :
    as.foldl py_min a = bs.foldl py_min b := by
  apply str_le_antisymm
  · exact py_min_fold_le as a _ (h.mem_iff.mpr (py_min_fold_mem bs b))
  · exact py_min_fold_le bs b _ (h.mem_iff.mp (py_min_fold_mem as a))

theorem py_min_eq_left {c d : String} (h : str_le c d = true) :
    py_min c d = c := by
  unfold py_min
  cases hlt : str_lt d c with
  | false => rfl
  | true =>
    exfalso
    simp only [str_le, Bool.or_eq_true, beq_iff_eq] at h
    rcases h with h | rfl
    · rw [str_lt_asymm h] at hlt
      exact absurd hlt (by simp)
    · rw [show str_lt c c = lexLt c.data c.data from rfl, lexLt_irrefl] at hlt
      exact absurd hlt (by simp)

theorem py_min_fold_eq_head : ∀ {ds : List String} {c : String},
    (∀ x ∈ ds, str_le c x = true) → ds.foldl py_min c = c := by
  intro ds
  induction ds with
  | nil => intro c _; rfl
  | cons d ds ih =>
    intro c h
    rw [List.foldl_cons, py_min_eq_left (h d (List.mem_cons_self d ds))]
    exact ih (fun x hx => h x (List.mem_cons_of_mem d hx))

theorem row_date_rel_total :
    ∀ a b : Row, (fun a b : Row => str_le a.date b.date = true) a b ∨
      (fun a b : Row => str_le a.date b.date = true) b a :=
  fun a b => str_le_total a.date b.date

instance : IsTotal Row (fun a b : Row => str_le a.date b.date = true) :=
  ⟨row_date_rel_total⟩

instance : IsTrans Row (fun a b : Row => str_le a.date b.date = true) :=
  ⟨fun _ _ _ => str_le_trans⟩

/-- Modelled from the claim vocabulary: the rows of an episode dated
strictly after the episode's first terminal date — the minimum date among
its terminal rows; empty when the episode has no terminal row. -/
def late_rows (rows : List Row) (ep : String) : List Row :=
  match ((rows.filter (fun r => r.episodeID == some ep)).filter
      (fun r => terminal_events.contains r.event)).map (fun r => r.date) with
  | [] => []
  | d :: ds =>
    (rows.filter (fun r => r.episodeID == some ep)).filter
      (fun r => str_lt (ds.foldl py_min d) r.date)

theorem state_branch_length (rows : List Row) (ep : String) :
    (state_branch rows ep).length = (late_rows rows ep).length := by
  unfold state_branch late_rows
  generalize rows.filter (fun r => r.episodeID == some ep) = eprows
  have hperm : (sort_rows_by_date eprows).Perm eprows :=
    List.perm_insertionSort _ _
  have hpermT : ((sort_rows_by_date eprows).filter
      (fun r => terminal_events.contains r.event)).Perm
      (eprows.filter (fun r => terminal_events.contains r.event)) :=
    hperm.filter _
  cases hT : (sort_rows_by_date eprows).filter
      (fun r => terminal_events.contains r.event) with
  | nil =>
    rw [hT] at hpermT
    have hTe : eprows.filter (fun r => terminal_events.contains r.event)
        = [] := hpermT.symm.eq_nil
    rw [hTe]
    rfl
  | cons t0 ts =>
    rw [hT] at hpermT
    have hsorted : List.Sorted (fun a b : Row => str_le a.date b.date = true)
        (sort_rows_by_date eprows) :=
      List.sorted_insertionSort _ _
    have hsortedT : List.Sorted
        (fun a b : Row => str_le a.date b.date = true) (t0 :: ts) := by
      rw [← hT]
      exact hsorted.filter _
    have hmin : ∀ x ∈ ts, str_le t0.date x.date = true :=
      fun x hx => (List.sorted_cons.mp hsortedT).1 x hx
    cases hSor : sort_rows_by_date eprows with
    | nil =>
      rw [hSor] at hT
      simp at hT
    | cons r0 rs =>
      cases hTd : (eprows.filter
          (fun r => terminal_events.contains r.event)).map
            (fun r => r.date) with
      | nil =>
        have h2 := hpermT.map (fun r => r.date)
        rw [hTd] at h2
        have h3 := h2.eq_nil
        simp at h3
      | cons d ds =>
        have hdates_perm : (t0.date :: ts.map (fun r => r.date)).Perm
            (d :: ds) := by
          have h2 := hpermT.map (fun r => r.date)
          rw [hTd] at h2
          exact h2
        have hm1 : (ts.map (fun r => r.date)).foldl py_min t0.date
            = t0.date := by
          apply py_min_fold_eq_head
          intro x hx
          obtain ⟨r, hr, rfl⟩ := List.mem_map.mp hx
          exact hmin r hr
        have hm2 : ds.foldl py_min d = t0.date := by
          rw [← py_min_fold_perm hdates_perm, hm1]
        show ((List.filter (fun r => str_lt t0.date r.date) (r0 :: rs)).map
            (fun r =>
              ep ++ " (" ++ r0.item ++ "): Event \x27" ++ r.event ++
                "\x27 on " ++ r.date ++ " after terminal event \x27" ++
                t0.event ++ "\x27 on " ++ t0.date)).length
          = (eprows.filter
              (fun r => str_lt (ds.foldl py_min d) r.date)).length
        rw [List.length_map, hm2, ← hSor]
        exact (hperm.filter (fun r => str_lt t0.date r.date)).length_eq

/- Concrete timelines used by the validator claims. -/

def rows_gap : List Row := [
  ⟨"2024-01-15", some "ep-001", "Hypothyroidism", "condition", "diagnosed",
    none, none⟩,
  ⟨"2024-01-16", some "ep-003", "Levothyroxine", "medication", "started",
    none, none⟩]

/-- C8 counterexample: a timeline with an episode-number gap.  The gap
finding is emitted by the episode_continuity check, and
get_validation_severity classifies that check as critical — not as the
advisory warning severity the claim asserts for gap findings. -/
theorem gap_findings_critical_counterexample :
    validate_episode_continuity rows_gap
      = ["Episode ID gap: ep-001 → ep-003"]
    ∧ get_validation_severity "episode_continuity" = "critical"
    ∧ "critical" ≠ "warning" := by
  refine ⟨by decide, by decide, by decide⟩

/-- C8 amended: gap findings are reported under the episode_continuity
check; run_all_validations stores them under that key, and the severity
model is per check, classifying episode_continuity (gaps included) as
critical, the same severity as csv_structure and chronological_order. -/
theorem episode_continuity_check_critical (timeline_path text : String)
    (rows : List Row) (entries_dir : Option Bool) :
    (run_all_validations timeline_path true text rows entries_dir).lookup
        "episode_continuity" = some (validate_episode_continuity rows)
    ∧ get_validation_severity "episode_continuity" = "critical" := by
  constructor
  · unfold run_all_validations
    cases entries_dir with
    | none => rfl
    | some b => cases b <;> rfl
  · rfl

def rows_stack : List Row := [
  ⟨"2024-01-15", some "ep-001", "VitaminD", "supplement", "started", none,
    some "Daily"⟩,
  ⟨"2024-01-16", some "ep-002", "Omega3", "supplement", "started", none,
    some "Daily"⟩,
  ⟨"2024-01-20", some "ep-003", "Magnesium", "supplement", "started", none,
    some "[STACK_UPDATE] Full stack"⟩]

/-- C9: on the spec scenario — VitaminD and Omega3 started before a
2024-01-20 stack update whose rows carry only a Magnesium started row —
the comprehensive-stack check reports exactly VitaminD (ep-001) and
Omega3 (ep-002) as started earlier but neither stopped/ended nor
re-affirmed. -/
theorem stack_update_scenario_reports_both :
    validate_comprehensive_stack_updates rows_stack =
      ["Comprehensive update 2024-01-20: VitaminD (ep-001) started earlier but not stopped/ended or continued",
       "Comprehensive update 2024-01-20: Omega3 (ep-002) started earlier but not stopped/ended or continued"] := by
  decide

/-- C10: run_all_validations always runs the sixth check
episode_state_consistency (stored under that key whenever the timeline
file exists, whether or not an entries directory is given), the severity
model classifies it as critical, its error count is exactly the number
of rows dated strictly after their episode's first terminal date (summed
over the episodes in first-appearance order), and a timeline where no
episode has such rows yields zero errors from this check. -/
theorem run_all_includes_episode_state_consistency
    (timeline_path text : String) (rows : List Row)
    (entries_dir : Option Bool) :
    (run_all_validations timeline_path true text rows entries_dir).lookup
        "episode_state_consistency"
      = some (validate_episode_state_consistency rows)
    ∧ get_validation_severity "episode_state_consistency" = "critical"
    ∧ (validate_episode_state_consistency rows).length
        = ((uniqFirst (rows.filterMap (fun r => r.episodeID))).map
            (fun ep => (late_rows rows ep).length)).sum
    ∧ ((∀ ep ∈ uniqFirst (rows.filterMap (fun r => r.episodeID)),
          late_rows rows ep = []) →
        validate_episode_state_consistency rows = []) := by
  have hlen : (validate_episode_state_consistency rows).length
      = ((uniqFirst (rows.filterMap (fun r => r.episodeID))).map
          (fun ep => (late_rows rows ep).length)).sum := by
    unfold validate_episode_state_consistency
    rw [List.length_flatten, List.map_map]
    congr 1
    apply List.map_congr_left
    intro ep _
    exact state_branch_length rows ep
  refine ⟨?_, rfl, hlen, ?_⟩
  · unfold run_all_validations
    cases entries_dir with
    | none => rfl
    | some b => cases b <;> rfl
  · intro h
    apply List.length_eq_zero.mp
    rw [hlen]
    apply List.sum_eq_zero
    intro n hn
    obtain ⟨ep, hep, rfl⟩ := List.mem_map.mp hn
    rw [h ep hep]
    rfl

def rows_state : List Row :=
  [⟨"2024-01-15", some "ep-001", "X", "condition", "resolved", none, none⟩]

/-- C10 witness: on a one-row timeline whose only episode terminates at
its only row, the check is present, critical, and reports nothing. -/
theorem run_all_includes_episode_state_consistency_witness :
    (run_all_validations "p" true "t" rows_state none).lookup
        "episode_state_consistency"
      = some (validate_episode_state_consistency rows_state)
    ∧ get_validation_severity "episode_state_consistency" = "critical"
    ∧ validate_episode_state_consistency rows_state = [] :=
  ⟨(run_all_includes_episode_state_consistency "p" "t" rows_state none).1,
   (run_all_includes_episode_state_consistency "p" "t" rows_state none).2.1,
   (run_all_includes_episode_state_consistency "p" "t" rows_state
      none).2.2.2 (by decide)⟩

/- ------------------------------------------------------------------
   Timeline truncation (src/main.py lines 976-1010) and episode-number
   extraction (src/main.py lines 881-886).
   ------------------------------------------------------------------ -/

/-- re.findall of ep-(digits), fueled for structural recursion (the fuel
is the input length, which every step consumes at least one character
of): on a failed match the scan advances one character, on a success it
continues after the matched digits. -/
def find_ep_nums_aux : Nat → List Char → List Nat
  | 0, _ => []
  | _, [] => []
  | fuel + 1, 'e' :: rest =>
    match rest with
    | 'p' :: '-' :: rest2 =>
      let ds := rest2.takeWhile Char.isDigit
      if ds.isEmpty then find_ep_nums_aux fuel rest
      else digits_to_nat ds :: find_ep_nums_aux fuel (rest2.drop ds.length)
    | _ => find_ep_nums_aux fuel rest
  | fuel + 1, _ :: rest => find_ep_nums_aux fuel rest

def find_ep_nums (l : List Char) : List Nat :=
  find_ep_nums_aux l.length l

/-- Embedding of _get_last_episode_num (src/main.py lines 881-886): the
largest number among all ep-N occurrences anywhere in the content, 0 if
there is none. -/
def get_last_episode_num (timeline_content : String) : Nat :=
  match find_ep_nums timeline_content.data with
  | [] => 0
  | n :: ns => ns.foldl max n

/-- Python str.strip(the quote character). -/
def strip_quote_chars (l : List Char) : List Char :=
  ((l.dropWhile (fun c => c == '"')).reverse.dropWhile
    (fun c => c == '"')).reverse

/-- The date column of a timeline row as _truncate_timeline_to_date reads
it: first comma field, stripped of whitespace and quotes. -/
def truncate_row_date (line : String) : String :=
  String.mk (strip_quote_chars (py_strip_chars
    ((split_on_char ',' line.data).headD [])))

/-- One iteration of the line loop of _truncate_timeline_to_date over the
accumulated (kept, last_ep) state. -/
def truncate_step (cutoff_date : String) (st : List String × Nat)
    (line : String) : List String × Nat :=
  if py_strip line = "" then st
  else if starts_with "Date," (py_strip line) then (st.1 ++ [line], st.2)
  else if str_lt (truncate_row_date line) cutoff_date then
    (st.1 ++ [line],
      match (find_ep_nums line.data).head? with
      | some n => max st.2 n
      | none => st.2)
  else st

/-- Embedding of _truncate_timeline_to_date (src/main.py lines 976-1010):
keep the header and the rows dated strictly before the cutoff, and track
the largest episode number that re.search finds first in each kept row. -/
def truncate_timeline_to_date (content : String) (cutoff_date : String) :
    String × Nat :=
  let st := (((split_on_char '\n' content.data).map String.mk).foldl
    (truncate_step cutoff_date) ([], 0))
  (join_with "\n" st.1, st.2)

def content_first_related : String :=
  "Date,EpisodeID,Item,Category,Event,RelatedEpisode,Details\n2024-01-01,ep-001,X,condition,noted,ep-005,d"

/-- C6 counterexample: a retained row whose RelatedEpisode column carries
ep-005 while its EpisodeID is ep-001.  The code keeps only the first
ep-N match of each row, so it reports lastEpisodeNum 1, while the
maximum episode number occurring among the retained rows (the source's
own _get_last_episode_num applied to the truncated content) is 5. -/
theorem truncate_first_ep_counterexample :
    (truncate_timeline_to_date content_first_related "2024-02-01").2 = 1
    ∧ get_last_episode_num
        (truncate_timeline_to_date content_first_related "2024-02-01").1 = 5
    ∧ (1 : Nat) ≠ 5 := by
  refine ⟨by decide, by decide, by decide⟩

theorem truncate_fold (cutoff_date : String) : ∀ (rows : List String)
    (kept : List String) (ep : Nat),
    (∀ l ∈ rows, py_strip l ≠ "" ∧
      starts_with "Date," (py_strip l) = false) →
    rows.foldl (truncate_step cutoff_date) (kept, ep)
      = (kept ++ (rows.filter
            (fun l => str_lt (truncate_row_date l) cutoff_date)),
         ((rows.filter (fun l => str_lt (truncate_row_date l)
            cutoff_date)).filterMap
              (fun l => (find_ep_nums l.data).head?)).foldl max ep) := by
  intro rows
  induction rows with
  | nil =>
    intro kept ep _
    simp
  | cons l rows ih =>
    intro kept ep h
    have hl := h l (List.mem_cons_self l rows)
    have hrest := fun a ha => h a (List.mem_cons_of_mem l ha)
    rw [List.foldl_cons]
    have hstep : truncate_step cutoff_date (kept, ep) l
        = if str_lt (truncate_row_date l) cutoff_date then
            (kept ++ [l],
              match (find_ep_nums l.data).head? with
              | some n => max ep n
              | none => ep)
          else (kept, ep) := by
      unfold truncate_step
      rw [if_neg hl.1]
      simp only [hl.2, Bool.false_eq_true, if_false]
    cases hlt : str_lt (truncate_row_date l) cutoff_date with
    | true =>
      rw [hstep, if_pos hlt, ih _ _ hrest]
      rw [List.filter_cons_of_pos (by simp [hlt]),
        List.filterMap_cons]
      cases hhead : (find_ep_nums l.data).head? with
      | some n =>
        simp only [List.append_assoc, List.singleton_append,
          List.foldl_cons]
      | none =>
        simp only [List.append_assoc, List.singleton_append]
    | false =>
      rw [hstep, if_neg (by simp [hlt]), ih _ _ hrest,
        List.filter_cons_of_neg (by simp [hlt])]

/-- C6 amended: for well-formed timeline content — a header line whose
stripped form starts with Date, followed by rows none of which is blank
or a second header — truncation keeps exactly the header plus the rows
whose date column is strictly below the cutoff, in order, and returns as
lastEpisodeNum the maximum over the retained rows of the first episode
number occurring in each row (0 when none is retained), not the maximum
over all occurrences. -/
theorem truncate_timeline_spec (content cutoff_date header : String)
    (rows : List String)
    (hsplit : (split_on_char '\n' content.data).map String.mk
      = header :: rows)
    (hheader : starts_with "Date," (py_strip header) = true)
    (hrows : ∀ l ∈ rows, py_strip l ≠ "" ∧
      starts_with "Date," (py_strip l) = false) :
    truncate_timeline_to_date content cutoff_date
      = (join_with "\n" (header :: rows.filter
          (fun l => str_lt (truncate_row_date l) cutoff_date)),
         ((rows.filter (fun l => str_lt (truncate_row_date l)
            cutoff_date)).filterMap
              (fun l => (find_ep_nums l.data).head?)).foldl max 0) := by
  unfold truncate_timeline_to_date
  rw [hsplit, List.foldl_cons]
  have hstep : truncate_step cutoff_date ([], 0) header = ([header], 0) := by
    unfold truncate_step
    have hne : ¬ py_strip header = "" := by
      intro he
      rw [he] at hheader
      exact absurd hheader (by decide)
    rw [if_neg hne]
    simp only [hheader, if_true]
    rfl
  rw [hstep, truncate_fold cutoff_date rows [header] 0 hrows]
  rfl

def content_two_rows : String :=
  "Date,EpisodeID,Item,Category,Event,RelatedEpisode,Details\n2024-01-01,ep-001,X,condition,noted,,d\n2024-02-05,ep-002,Y,condition,noted,,d"

/-- C6 witness: a two-row timeline truncated at 2024-02-01 keeps the
header and the first row and reports lastEpisodeNum 1. -/
theorem truncate_timeline_spec_witness :
    truncate_timeline_to_date content_two_rows "2024-02-01"
      = (join_with "\n"
          ("Date,EpisodeID,Item,Category,Event,RelatedEpisode,Details" ::
            (["2024-01-01,ep-001,X,condition,noted,,d",
              "2024-02-05,ep-002,Y,condition,noted,,d"].filter
              (fun l => str_lt (truncate_row_date l) "2024-02-01"))),
         (((["2024-01-01,ep-001,X,condition,noted,,d",
              "2024-02-05,ep-002,Y,condition,noted,,d"].filter
              (fun l => str_lt (truncate_row_date l)
                "2024-02-01")).filterMap
              (fun l => (find_ep_nums l.data).head?)).foldl max 0)) :=
  truncate_timeline_spec content_two_rows "2024-02-01"
    "Date,EpisodeID,Item,Category,Event,RelatedEpisode,Details"
    ["2024-01-01,ep-001,X,condition,noted,,d",
     "2024-02-05,ep-002,Y,condition,noted,,d"]
    (by decide) (by decide) (by decide)

/- ------------------------------------------------------------------
   Timeline builder (src/main.py).

   _build_health_timeline (lines 648-745), _full_timeline_rebuild (747-
   785), _get_empty_timeline (800-802), _parse_timeline_header (804-850),
   _read_timeline_content (852-864), _save_timeline (866-879),
   _format_hashes_line (888-901), _parse_hashes_line (903-924),
   _calculate_batch_size (1012-1046), _process_timeline_batch (1048-
   1110).

   The LLM call inside _process_timeline_batch is an oracle taking the
   three semantic inputs the prompt is built from (existing timeline
   text, batch of entries, next episode number) and returning the raw
   response or an error; the deterministic prompt assembly adds nothing
   observable.  The builder result is a BuildOutcome: the returned (or
   raised) value, the list of file contents handed to _save_timeline in
   order, and the number of LLM calls made. -/

/-- Embedding of _get_empty_timeline (src/main.py lines 800-802): note
the header has six columns and no RelatedEpisode. -/
def get_empty_timeline : String :=
  "Date,EpisodeID,Item,Category,Event,Details"

/-- Embedding of _read_timeline_content (src/main.py lines 852-864). -/
def read_timeline_content (text : String) : String :=
  join_with "\n" (((split_on_char '\n' text.data).map String.mk).dropWhile
    (fun l => starts_with "#" l))

/-- Exactly four digits, dash, two digits, dash, two digits — the date
group of the header regexes. -/
def parse_date10 (l : List Char) : Option (String × List Char) :=
  match l with
  | c1 :: c2 :: c3 :: c4 :: '-' :: c5 :: c6 :: '-' :: c7 :: c8 :: rest =>
    if c1.isDigit && c2.isDigit && c3.isDigit && c4.isDigit &&
        c5.isDigit && c6.isDigit && c7.isDigit && c8.isDigit then
      some (String.mk [c1, c2, c3, c4, '-', c5, c6, '-', c7, c8], rest)
    else none
  | _ => none

/-- A greedy digit run, at least one digit. -/
def parse_digits (l : List Char) : Option (Nat × List Char) :=
  let ds := l.takeWhile Char.isDigit
  if ds.isEmpty then none else some (digits_to_nat ds, l.drop ds.length)

/-- The part of the new-format header regex after the greedy dot-star. -/
def new_format_tail (l : List Char) : Option (String × Nat) :=
  match l with
  | '|' :: r1 =>
    match drop_exact "Processed through:".data
        (r1.dropWhile Char.isWhitespace) with
    | none => none
    | some r2 =>
      match parse_date10 (r2.dropWhile Char.isWhitespace) with
      | none => none
      | some (date, r3) =>
        match r3.dropWhile Char.isWhitespace with
        | '|' :: r4 =>
          match drop_exact "LastEp:".data
              (r4.dropWhile Char.isWhitespace) with
          | none => none
          | some r5 =>
            match parse_digits (r5.dropWhile Char.isWhitespace) with
            | none => none
            | some (n, _) => some (date, n)
        | _ => none
  | _ => none

/-- The greedy dot-star: try the longest prefix first, so the shortest
suffix is attempted first. -/
def scan_greedy {α : Type} (f : List Char → Option α) : List Char → Option α
  | [] => f []
  | l@(_ :: t) =>
    match scan_greedy f t with
    | some r => some r
    | none => f l

/-- re.match of the new-format header pattern. -/
def match_new_format (line : String) : Option (String × Nat) :=
  match line.data with
  | '#' :: r0 =>
    match drop_exact "Last updated:".data
        (r0.dropWhile Char.isWhitespace) with
    | none => none
    | some r1 => scan_greedy new_format_tail r1
  | _ => none

def word_char (c : Char) : Bool := c.isAlphanum || c == '_'

/-- The part of the legacy header regex after the greedy dot-star (the
extra Hash:word field precedes LastEp). -/
def legacy_tail (l : List Char) : Option (String × Nat) :=
  match l with
  | '|' :: r1 =>
    match drop_exact "Processed through:".data
        (r1.dropWhile Char.isWhitespace) with
    | none => none
    | some r2 =>
      match parse_date10 (r2.dropWhile Char.isWhitespace) with
      | none => none
      | some (date, r3) =>
        match r3.dropWhile Char.isWhitespace with
        | '|' :: r4 =>
          match drop_exact "Hash:".data
              (r4.dropWhile Char.isWhitespace) with
          | none => none
          | some r5 =>
            let r6 := r5.dropWhile Char.isWhitespace
            let ws := r6.takeWhile word_char
            if ws.isEmpty then none
            else
              match (r6.drop ws.length).dropWhile Char.isWhitespace with
              | '|' :: r7 =>
                match drop_exact "LastEp:".data
                    (r7.dropWhile Char.isWhitespace) with
                | none => none
                | some r8 =>
                  match parse_digits (r8.dropWhile Char.isWhitespace) with
                  | none => none
                  | some (n, _) => some (date, n)
              | _ => none
        | _ => none
  | _ => none

/-- re.match of the legacy header pattern. -/
def match_legacy (line : String) : Option (String × Nat) :=
  match line.data with
  | '#' :: r0 =>
    match drop_exact "Last updated:".data
        (r0.dropWhile Char.isWhitespace) with
    | none => none
    | some r1 => scan_greedy legacy_tail r1
  | _ => none

/-- Embedding of _parse_hashes_line (src/main.py lines 903-924). -/
def parse_hashes_line (line : String) : List (String × String) :=
  if starts_with "# HASHES:" line then
    let hashes_part := py_strip (String.mk (line.data.drop 9))
    if hashes_part = "" then []
    else
      (split_on_char ',' hashes_part.data).foldl (fun result pair =>
        if pair.contains '=' then
          result ++ [(String.mk (py_strip_chars
              (pair.takeWhile (fun c => !(c == '=')))),
            String.mk (py_strip_chars
              ((pair.dropWhile (fun c => !(c == '='))).drop 1)))]
        else result) []
  else []

/-- Embedding of _parse_timeline_header (src/main.py lines 804-850): the
new format yields the processed-through date, last episode number and
per-entry hash map; the legacy format yields an empty map to force a
migration rebuild; anything else yields (none, 0, empty). -/
def parse_timeline_header (file : Option String) :
    Option String × Nat × List (String × String) :=
  match file with
  | none => (none, 0, [])
  | some text =>
    let lines := (split_on_char '\n' text.data).map String.mk
    match match_new_format (lines.headD "") with
    | some (pt, lastEp) =>
      (some pt, lastEp,
        if lines.length > 1 &&
            starts_with "# HASHES:" (lines.getD 1 "") then
          parse_hashes_line (lines.getD 1 "")
        else [])
    | none =>
      match match_legacy (lines.headD "") with
      | some (pt, lastEp) => (some pt, lastEp, [])
      | none => (none, 0, [])

/-- Embedding of _format_hashes_line (src/main.py lines 888-901):
entries sorted by date (stably, by the date key alone). -/
def format_hashes_line (hash_content : String → String)
    (entries : List (String × String)) : String :=
  "# HASHES: " ++ join_comma
    ((List.insertionSort (fun a b : String × String =>
        str_le a.1 b.1 = true) entries).map
      (fun e => e.1 ++ "=" ++ hash_content e.2))

/-- The file content _save_timeline writes
(src/main.py lines 866-879). -/
def save_timeline_text (hash_content : String → String) (today : String)
    (content : String) (processed_through : String)
    (entries : List (String × String)) (last_ep : Nat) : String :=
  "# Last updated: " ++ today ++ " | Processed through: " ++
    processed_through ++ " | LastEp: " ++ toString last_ep ++ "\n" ++
    format_hashes_line hash_content entries ++ "\n" ++ content

/-- The accumulation loop of _calculate_batch_size. -/
def calc_batch_loop : List (String × String) → Int → Int → Nat → Nat
  | [], _, _, count => count
  | (_, content) :: rest, avail4, batch_chars, count =>
    if batch_chars + (content.length : Int) > avail4 then count
    else if ((count + 1) * 60 : Int) > 32768 - 1000 then count
    else calc_batch_loop rest avail4 (batch_chars + content.length)
      (count + 1)

/-- Embedding of _calculate_batch_size (src/main.py lines 1012-1046):
the context budget arithmetic is signed, so the available input budget
is an Int. -/
def calculate_batch_size (entries : List (String × String))
    (timeline_size : Nat) : Nat :=
  let timeline_tokens : Int := (timeline_size / 4 : Nat)
  let available_input_tokens : Int :=
    200000 - 3000 - timeline_tokens - 32768 - 10000
  max 1 (calc_batch_loop entries (available_input_tokens * 4) 0 0)

/-- The response cleanup of _process_timeline_batch: strip, remove code
fences, drop an accidental header row. -/
def clean_llm_response (response : String) : String :=
  let cleaned := py_strip response
  let cleaned :=
    if starts_with "```" cleaned then
      let lines := (split_on_char '\n' cleaned.data).map String.mk
      let lines :=
        if starts_with "```" (lines.headD "") then lines.drop 1 else lines
      let lines :=
        if !lines.isEmpty && (py_strip (lines.getLastD "") == "```") then
          lines.dropLast
        else lines
      join_with "\n" lines
    else cleaned
  let lines := (split_on_char '\n' cleaned.data).map String.mk
  let lines :=
    if !lines.isEmpty && starts_with "Date," (py_strip (lines.headD ""))
    then lines.drop 1 else lines
  join_with "\n" lines

/-- Embedding of _process_timeline_batch (src/main.py lines 1048-1110):
one oracle call followed by the deterministic cleanup; an oracle error
is the raised exception. -/
def process_timeline_batch
    (llm : String → List (String × String) → Nat → Except String String)
    (existing_timeline : String) (entries : List (String × String))
    (next_episode_num : Nat) : Except String String :=
  match llm existing_timeline entries next_episode_num with
  | Except.error e => Except.error e
  | Except.ok response => Except.ok (clean_llm_response response)

/-- The batch loop shared by _full_timeline_rebuild and the rebuild arm
of _build_health_timeline (their bodies are identical up to variable
names).  Fueled for structural recursion: each step consumes a batch of
size at least one, so fuel equal to the number of remaining entries is
never exhausted (the fuel-out branch returns the running content, and is
unreachable from the builder, which passes the list length). -/
def run_batches_aux
    (llm : String → List (String × String) → Nat → Except String String) :
    Nat → List (String × String) → String → Nat →
      Except String String × Nat
  | _, [], timeline_content, _ => (Except.ok timeline_content, 0)
  | 0, _ :: _, timeline_content, _ => (Except.ok timeline_content, 0)
  | fuel + 1, to_process@(_ :: _), timeline_content, next_ep =>
    let batch_size := calculate_batch_size to_process
      timeline_content.length
    match process_timeline_batch llm timeline_content
        (to_process.take batch_size) next_ep with
    | Except.error e => (Except.error e, 1)
    | Except.ok new_rows =>
      let st :=
        if py_strip new_rows ≠ "" then
          (py_rstrip timeline_content ++ "\n" ++ new_rows,
           get_last_episode_num
             (py_rstrip timeline_content ++ "\n" ++ new_rows) + 1)
        else (timeline_content, next_ep)
      match run_batches_aux llm fuel (to_process.drop batch_size)
          st.1 st.2 with
      | (res, calls) => (res, calls + 1)

deriving instance DecidableEq for Except

/-- The observable outcome of one _build_health_timeline invocation: the
returned (or raised) value, the contents handed to _save_timeline in
order, and the number of Extractor calls. -/
structure BuildOutcome where
  result : Except String String
  writes : List String
  llm_calls : Nat
deriving DecidableEq

/-- The content the append arm appends the new rows to (the source binds
existing_content once; written as a function of the file here). -/
def appended_content (timeline_file : Option String) (new_rows : String) :
    String :=
  if py_strip new_rows ≠ "" then
    py_rstrip (read_timeline_content (timeline_file.getD "")) ++ "\n" ++
      new_rows
  else read_timeline_content (timeline_file.getD "")

/-- Embedding of _build_health_timeline (src/main.py lines 648-745) with
_full_timeline_rebuild (747-785) inlined as the empty-hash arm.  The
timeline file is none when absent; entries are the chronological
(date, content) pairs _get_chronological_entries returns. -/
def build_health_timeline (hash_content : String → String)
    (llm : String → List (String × String) → Nat → Except String String)
    (today : String) (timeline_file : Option String)
    (entries : List (String × String)) : BuildOutcome :=
  if entries.isEmpty then ⟨Except.ok get_empty_timeline, [], 0⟩
  else
    if (parse_timeline_header timeline_file).2.2.isEmpty then
      match run_batches_aux llm entries.length entries get_empty_timeline 1
        with
      | (Except.error e, calls) => ⟨Except.error e, [], calls⟩
      | (Except.ok content, calls) =>
        ⟨Except.ok content,
         [save_timeline_text hash_content today content
           (entries.getLastD ("", "")).1 entries
           (get_last_episode_num content)],
         calls⟩
    else
      match find_earliest_change hash_content entries
          (parse_timeline_header timeline_file).2.2
          (parse_timeline_header timeline_file).1 with
      | none =>
        ⟨Except.ok (read_timeline_content (timeline_file.getD "")), [], 0⟩
      | some change =>
        if change = "append" then
          match process_timeline_batch llm
              (read_timeline_content (timeline_file.getD ""))
              (entries.filter (fun e =>
                opt_gt e.1 (parse_timeline_header timeline_file).1))
              ((parse_timeline_header timeline_file).2.1 + 1) with
          | Except.error e => ⟨Except.error e, [], 1⟩
          | Except.ok new_rows =>
            ⟨Except.ok (appended_content timeline_file new_rows),
             [save_timeline_text hash_content today
               (appended_content timeline_file new_rows)
               (entries.getLastD ("", "")).1 entries
               (get_last_episode_num (appended_content timeline_file
                 new_rows))],
             1⟩
        else
          match run_batches_aux llm
              (entries.filter (fun e => str_le change e.1)).length
              (entries.filter (fun e => str_le change e.1))
              (truncate_timeline_to_date
                (read_timeline_content (timeline_file.getD "")) change).1
              ((truncate_timeline_to_date
                (read_timeline_content (timeline_file.getD ""))
                  change).2 + 1) with
          | (Except.error e, calls) => ⟨Except.error e, [], calls⟩
          | (Except.ok content, calls) =>
            ⟨Except.ok content,
             [save_timeline_text hash_content today content
               (entries.getLastD ("", "")).1 entries
               (get_last_episode_num content)],
             calls⟩

/-- The timeline file state after a build: the last write, or the
original file when nothing was written. -/
def file_after (file : Option String) (o : BuildOutcome) : Option String :=
  match o.writes.getLast? with
  | some w => some w
  | none => file

/- Supporting lemmas for the no-op and abort theorems. -/

theorem str_not_lt_of_le {a b : String} (h : str_le a b = true) :
    str_lt b a = false := by
  cases hlt : str_lt b a with
  | false => rfl
  | true =>
    exfalso
    simp only [str_le, Bool.or_eq_true, beq_iff_eq] at h
    rcases h with h | rfl
    · rw [str_lt_asymm h] at hlt
      exact absurd hlt (by simp)
    · rw [show str_lt a a = lexLt a.data a.data from rfl, lexLt_irrefl]
        at hlt
      exact absurd hlt (by simp)

theorem filter_nil_of_all {α : Type} {p : α → Bool} {l : List α}
    (h : ∀ a ∈ l, p a = false) : l.filter p = [] := by
  induction l with
  | nil => rfl
  | cons a l ih =>
    rw [List.filter_cons_of_neg (by simp [h a (List.mem_cons_self a l)])]
    exact ih (fun b hb => h b (List.mem_cons_of_mem a hb))

theorem dget_current_map (hash_content : String → String) :
    ∀ (entries : List (String × String)) (k : String),
    dget (current_map hash_content entries) k
      = (dget entries k).map hash_content := by
  intro entries
  induction entries with
  | nil => intro k; rfl
  | cons e es ih =>
    intro k
    obtain ⟨d, c⟩ := e
    show dget ((d, hash_content c) :: current_map hash_content es) k = _
    simp only [dget, ih k]
    cases dget es k with
    | some r => rfl
    | none => by_cases hk : d = k <;> simp [hk]

theorem dget_some_mem_pair : ∀ {l : List (String × String)} {k v : String},
    dget l k = some v → (k, v) ∈ l := by
  intro l
  induction l with
  | nil => intro k v h; cases h
  | cons e es ih =>
    intro k v h
    obtain ⟨d, c⟩ := e
    simp only [dget] at h
    cases hr : dget es k with
    | some r =>
      rw [hr] at h
      exact List.mem_cons_of_mem _ (ih (hr.trans h))
    | none =>
      rw [hr] at h
      by_cases hk : d = k
      · rw [if_pos hk] at h
        have hv : c = v := Option.some.inj h
        subst hv
        subst hk
        exact List.mem_cons_self _ _
      · rw [if_neg hk] at h
        cases h

/-- C3 core: when every current entry matches the stored map, the stored
and current date sets coincide, and nothing is dated past the
processed-through date, the change detector reports a cache hit. -/
theorem find_earliest_change_noop (hash_content : String → String)
    (entries stored : List (String × String)) (pt : String)
    (hmatch : ∀ p ∈ entries, dget stored p.1 = some (hash_content p.2))
    (hcov1 : ∀ d ∈ entries.map Prod.fst, d ∈ stored.map Prod.fst)
    (hcov2 : ∀ d ∈ stored.map Prod.fst, d ∈ entries.map Prod.fst)
    (hle : ∀ p ∈ entries, str_le p.1 pt = true) :
    find_earliest_change hash_content entries stored (some pt) = none := by
  have hdget : ∀ d ∈ entries.map Prod.fst,
      dget (current_map hash_content entries) d = dget stored d := by
    intro d hd
    cases hc : dget entries d with
    | none =>
      exact absurd hd ((dget_none_iff entries d).mp hc)
    | some c =>
      rw [dget_current_map hash_content entries d, hc]
      exact (hmatch (d, c) (dget_some_mem_pair hc)).symm
  have hcp : change_points hash_content entries stored (some pt) = [] := by
    have h1 : (stored.map Prod.fst).filter
        (fun d => !((entries.map Prod.fst).contains d)) = [] :=
      filter_nil_of_all (fun d hd => by simp [contains_true_iff, hcov2 d hd])
    have h2 : (entries.map Prod.fst).filter
        (fun d => (stored.map Prod.fst).contains d &&
          (dget (current_map hash_content entries) d != dget stored d))
        = [] :=
      filter_nil_of_all (fun d hd => by simp [hdget d hd])
    have h3 : (entries.map Prod.fst).filter
        (fun d => !((stored.map Prod.fst).contains d) &&
          (py_truthy (some pt) && opt_le d (some pt))) = [] :=
      filter_nil_of_all (fun d hd => by
        simp [contains_true_iff, hcov1 d hd])
    unfold change_points
    simp only [current_map_dates]
    rw [h1, h2, h3]
    rfl
  unfold find_earliest_change
  rw [hcp]
  have hany : ((current_map hash_content entries).map Prod.fst).any
      (fun d => opt_gt d (some pt)) = false := by
    rw [current_map_dates, List.any_eq_false]
    intro d hd
    obtain ⟨p, hp, rfl⟩ := List.mem_map.mp hd
    show ¬ opt_gt p.1 (some pt) = true
    show ¬ str_lt pt p.1 = true
    rw [str_not_lt_of_le (hle p hp)]
    simp
  rw [hany, Bool.and_false, if_neg (by simp)]

/-- C3: a run with no entry changes is a no-op — the change detector
reports a cache hit, and the builder returns the existing timeline
content unchanged, hands nothing to _save_timeline, and makes zero
Extractor calls, so the on-disk timeline stays byte-identical. -/
theorem build_health_timeline_noop (hash_content : String → String)
    (llm : String → List (String × String) → Nat → Except String String)
    (today f : String) (pt : String) (lastEp : Nat)
    (stored : List (String × String)) (entries : List (String × String))
    (hparse : parse_timeline_header (some f) = (some pt, lastEp, stored))
    (hne : stored ≠ [])
    (hmatch : ∀ p ∈ entries, dget stored p.1 = some (hash_content p.2))
    (hcov1 : ∀ d ∈ entries.map Prod.fst, d ∈ stored.map Prod.fst)
    (hcov2 : ∀ d ∈ stored.map Prod.fst, d ∈ entries.map Prod.fst)
    (hle : ∀ p ∈ entries, str_le p.1 pt = true) :
    find_earliest_change hash_content entries stored (some pt) = none
    ∧ build_health_timeline hash_content llm today (some f) entries
      = ⟨Except.ok (read_timeline_content f), [], 0⟩
    ∧ file_after (some f)
        (build_health_timeline hash_content llm today (some f) entries)
      = some f := by
  have hfind := find_earliest_change_noop hash_content entries stored pt
    hmatch hcov1 hcov2 hle
  have hene : entries ≠ [] := by
    cases hs : stored with
    | nil => exact absurd hs hne
    | cons p ps =>
      have hp1 : p.1 ∈ stored.map Prod.fst := by
        rw [hs]
        exact List.mem_map.mpr ⟨p, List.mem_cons_self p ps, rfl⟩
      have := hcov2 p.1 hp1
      intro he
      rw [he] at this
      simp at this
  have hbuild : build_health_timeline hash_content llm today (some f)
      entries = ⟨Except.ok (read_timeline_content f), [], 0⟩ := by
    unfold build_health_timeline
    rw [if_neg (by simp [hene])]
    simp only [hparse]
    rw [if_neg (by simp [hne])]
    rw [hfind]
    rfl
  exact ⟨hfind, hbuild, by rw [hbuild]; rfl⟩

def file_noop : String :=
  "# Last updated: 2024-02-01 | Processed through: 2024-01-15 | LastEp: 1\n# HASHES: 2024-01-15=abc\nDate,EpisodeID,Item,Category,Event,Details\n2024-01-15,ep-001,X,supplement,started,d"

/-- A concrete oracle used by builder witnesses: it always fails, which
also certifies the no-op path never consults it. -/
def llmFail : String → List (String × String) → Nat →
    Except String String :=
  fun _ _ _ => Except.error "boom"

/-- C3 witness: an unchanged one-entry timeline is a no-op. -/
theorem build_health_timeline_noop_witness :
    find_earliest_change hashTest [("2024-01-15", "cA")]
        [("2024-01-15", "abc")] (some "2024-01-15") = none
    ∧ build_health_timeline hashTest llmFail "2024-03-01" (some file_noop)
        [("2024-01-15", "cA")]
      = ⟨Except.ok (read_timeline_content file_noop), [], 0⟩
    ∧ file_after (some file_noop)
        (build_health_timeline hashTest llmFail "2024-03-01"
          (some file_noop) [("2024-01-15", "cA")])
      = some file_noop :=
  build_health_timeline_noop hashTest llmFail "2024-03-01" file_noop
    "2024-01-15" 1 [("2024-01-15", "abc")] [("2024-01-15", "cA")]
    (by decide) (by decide) (by decide) (by decide) (by decide) (by decide)

/-- Every branch of the builder either writes nothing or succeeds: the
only _save_timeline calls sit after all Extractor calls of the build
have returned. -/
theorem build_writes_inv (hash_content : String → String)
    (llm : String → List (String × String) → Nat → Except String String)
    (today : String) (timeline_file : Option String)
    (entries : List (String × String)) :
    (build_health_timeline hash_content llm today timeline_file
      entries).writes = []
    ∨ ∃ c, (build_health_timeline hash_content llm today timeline_file
        entries).result = Except.ok c := by
  unfold build_health_timeline
  split
  · exact Or.inr ⟨get_empty_timeline, rfl⟩
  · split
    · split
      · exact Or.inl rfl
      · exact Or.inr ⟨_, rfl⟩
    · split
      · exact Or.inr ⟨_, rfl⟩
      · split
        · split
          · exact Or.inl rfl
          · exact Or.inr ⟨_, rfl⟩
        · split
          · exact Or.inl rfl
          · exact Or.inr ⟨_, rfl⟩

/-- C4: when any batch's Extractor call fails, the error propagates out
of the build, nothing is ever handed to _save_timeline, and the on-disk
timeline keeps exactly its prior state. -/
theorem build_health_timeline_error_no_write (hash_content : String → String)
    (llm : String → List (String × String) → Nat → Except String String)
    (today : String) (timeline_file : Option String)
    (entries : List (String × String)) (e : String)
    (h : (build_health_timeline hash_content llm today timeline_file
      entries).result = Except.error e) :
    (build_health_timeline hash_content llm today timeline_file
      entries).writes = []
    ∧ file_after timeline_file
        (build_health_timeline hash_content llm today timeline_file
          entries)
      = timeline_file := by
  rcases build_writes_inv hash_content llm today timeline_file entries with
    hw | ⟨c, hc⟩
  · refine ⟨hw, ?_⟩
    unfold file_after
    rw [hw]
    rfl
  · rw [hc] at h
    cases h

/-- C4 witness: a failing Extractor aborts a full rebuild after one call
and the (absent) timeline file stays absent. -/
theorem build_health_timeline_error_no_write_witness :
    (build_health_timeline hashTest llmFail "2024-03-01" none
      [("2024-01-01", "x")]).result = Except.error "boom"
    ∧ (build_health_timeline hashTest llmFail "2024-03-01" none
        [("2024-01-01", "x")]).writes = []
    ∧ file_after none (build_health_timeline hashTest llmFail "2024-03-01"
        none [("2024-01-01", "x")])
      = none :=
  ⟨by decide,
   (build_health_timeline_error_no_write hashTest llmFail "2024-03-01"
     none [("2024-01-01", "x")] "boom" (by decide)).1,
   (build_health_timeline_error_no_write hashTest llmFail "2024-03-01"
     none [("2024-01-01", "x")] "boom" (by decide)).2⟩

/-- C7: the empty timeline the full rebuild starts from carries a
six-column header without RelatedEpisode, while the validator's expected
header (validate_csv_structure, src/validate_timeline.py line 78), every
test fixture and the viewer use the seven-column
Date,EpisodeID,Item,Category,Event,RelatedEpisode,Details — the code
slip the claim exposes. -/
theorem empty_timeline_header_six_columns :
    get_empty_timeline = "Date,EpisodeID,Item,Category,Event,Details"
    ∧ (split_on_char ',' get_empty_timeline.data).length = 6
    ∧ (split_on_char ','
        "Date,EpisodeID,Item,Category,Event,RelatedEpisode,Details".data).length
      = 7
    ∧ get_empty_timeline
      ≠ "Date,EpisodeID,Item,Category,Event,RelatedEpisode,Details" := by
  refine ⟨rfl, by decide, by decide, by decide⟩

end ParseHealthLog
